import Mathlib

/-!
Verification of the flashcards backend against its specification.

The Python sources are shallowly embedded: strings are modelled as `String`
or `List Char`, Python ints as `Int`/`Nat`, fallible service operations as
`Except`-valued functions over an explicit database state, and the float
arithmetic in the review scheduler as exact rational arithmetic followed by
truncation (`Int.tdiv`), which matches CPython's `int(...)` on the exact
values involved.
-/

set_option maxHeartbeats 1000000
set_option maxRecDepth 10000

deriving instance DecidableEq for Except

/-! ## Basic Python-style string utilities -/

/-- Whitespace test used to model Python's `str.strip` and the regex class
whitespace (restricted to the ASCII whitespace characters). -/
def pyWs (c : Char) : Bool :=
  c = ' ' || c = '\t' || c = '\n' || c = '\r' || c = '\x0b' || c = '\x0c'

/-- Model of Python's `str.strip()` on a character list. -/
def pyStrip (l : List Char) : List Char :=
  ((l.dropWhile pyWs).reverse.dropWhile pyWs).reverse

/-- Does `p` occur as a leading run of `l`? -/
def startsWith : List Char → List Char → Bool
  | [], _ => true
  | _ :: _, [] => false
  | p :: ps, c :: cs => p == c && startsWith ps cs

/-- Does `p` occur as a contiguous substring of `l`? -/
def containsSub (p : List Char) : List Char → Bool
  | [] => p.isEmpty
  | c :: cs => startsWith p (c :: cs) || containsSub p cs

/-- Worker for `pyReplace`: the `Nat` state counts characters of a matched
occurrence that remain to be skipped. -/
def replaceAux (p rep : List Char) : Nat → List Char → List Char
  | _, [] => []
  | k + 1, _ :: cs => replaceAux p rep k cs
  | 0, c :: cs =>
    if startsWith p (c :: cs) && !p.isEmpty then
      rep ++ replaceAux p rep (p.length - 1) cs
    else
      c :: replaceAux p rep 0 cs

/-- Model of Python's `str.replace(pat, rep)`: left-to-right, non-overlapping
replacement of every occurrence of a non-empty pattern. -/
def pyReplace (p rep : List Char) (l : List Char) : List Char :=
  replaceAux p rep 0 l

/-- Model of Python's `str.split(sep)` for a single-character separator:
splits at every occurrence, keeping empty pieces. -/
def splitCh (sep : Char) : List Char → List (List Char)
  | [] => [[]]
  | c :: cs =>
    if c = sep then [] :: splitCh sep cs
    else
      match splitCh sep cs with
      | [] => [[c]]
      | h :: t => (c :: h) :: t

/-- Model of Python's `str.split()` with no argument: splits on runs of
whitespace and drops empty pieces. -/
def pySplitWs : List Char → List (List Char)
  | [] => []
  | c :: cs =>
    if pyWs c then pySplitWs cs
    else
      match pySplitWs cs with
      | [] => [[c]]
      | h :: t =>
        match cs with
        | [] => [[c]]
        | d :: _ => if pyWs d then [c] :: h :: t else (c :: h) :: t

/-- Model of Python list indexing `l[i]` (negative indices count from the
end; out-of-range access has no value). -/
def pyGetIndex (l : List (List Char)) (i : Int) : Option (List Char) :=
  if 0 ≤ i then l[i.toNat]?
  else if 0 ≤ (l.length : Int) + i then l[((l.length : Int) + i).toNat]?
  else none

/-- Model of Python's `max(list)` as used on the due values, with the
`or [0]` default for the empty case. -/
def listMax : List Int → Int
  | [] => 0
  | x :: xs => xs.foldl max x

/-- Next autoincrement primary key for a list of existing ids. -/
def nextId (ids : List Int) : Int :=
  (ids.foldl max 0) + 1

/-! ## SHA-1 (model of Python's `hashlib.sha1`)

The byte-level SHA-1 algorithm (FIPS 180-4), on `Nat` byte values, used by
`anki_field_checksum` in `app/helper.py`. -/

/-- UTF-8 encoding of one code point (model of `str.encode('utf-8')`). -/
def utf8Bytes (n : Nat) : List Nat :=
  if n < 0x80 then [n]
  else if n < 0x800 then
    [0xC0 ||| (n >>> 6), 0x80 ||| (n &&& 0x3F)]
  else if n < 0x10000 then
    [0xE0 ||| (n >>> 12), 0x80 ||| ((n >>> 6) &&& 0x3F), 0x80 ||| (n &&& 0x3F)]
  else
    [0xF0 ||| (n >>> 18), 0x80 ||| ((n >>> 12) &&& 0x3F),
     0x80 ||| ((n >>> 6) &&& 0x3F), 0x80 ||| (n &&& 0x3F)]

/-- UTF-8 byte sequence of a string. -/
def utf8Encode (s : String) : List Nat :=
  s.data.flatMap (fun c => utf8Bytes c.toNat)

/-- 32-bit rotate left. -/
def rotl32 (x k : Nat) : Nat :=
  ((x <<< k) ||| (x >>> (32 - k))) &&& 0xFFFFFFFF

/-- Big-endian bytes (8 of them) of a natural number. -/
def beBytes8 (n : Nat) : List Nat :=
  [(n >>> 56) &&& 255, (n >>> 48) &&& 255, (n >>> 40) &&& 255,
   (n >>> 32) &&& 255, (n >>> 24) &&& 255, (n >>> 16) &&& 255,
   (n >>> 8) &&& 255, n &&& 255]

/-- Big-endian bytes (4 of them) of a 32-bit word. -/
def wordBytes (n : Nat) : List Nat :=
  [(n >>> 24) &&& 255, (n >>> 16) &&& 255, (n >>> 8) &&& 255, n &&& 255]

/-- SHA-1 message padding: append `0x80`, zero bytes to 56 mod 64, then the
bit length as 8 big-endian bytes. -/
def sha1Pad (msg : List Nat) : List Nat :=
  let z := (119 - msg.length % 64) % 64
  msg ++ [0x80] ++ List.replicate z 0 ++ beBytes8 (msg.length * 8)

/-- Split a byte list into 64-byte chunks (fuel-indexed so that the kernel
can evaluate it; `l.length` fuel always suffices). -/
def toChunksF : Nat → List Nat → List (List Nat)
  | _, [] => []
  | 0, _ :: _ => []
  | fuel + 1, x :: xs => (x :: xs).take 64 :: toChunksF fuel ((x :: xs).drop 64)

/-- Split a byte list into 64-byte chunks. -/
def toChunks (l : List Nat) : List (List Nat) :=
  toChunksF l.length l

/-- One big-endian 32-bit word from four bytes. -/
def beWord : List Nat → Nat
  | a :: b :: c :: d :: _ => ((a * 256 + b) * 256 + c) * 256 + d
  | _ => 0

/-- The first 16 message-schedule words of a 64-byte chunk. -/
def chunkWords (chunk : List Nat) : List Nat :=
  (List.range 16).map (fun i => beWord (chunk.drop (4 * i)))

/-- Extend the message schedule by `n` further words. -/
def sha1Extend : Nat → List Nat → List Nat
  | 0, w => w
  | n + 1, w =>
    let i := w.length
    let x := rotl32
      ((w.getD (i - 3) 0) ^^^ (w.getD (i - 8) 0) ^^^
       (w.getD (i - 14) 0) ^^^ (w.getD (i - 16) 0)) 1
    sha1Extend n (w ++ [x])

/-- One SHA-1 compression round. -/
def sha1Round (w : List Nat) (st : Nat × Nat × Nat × Nat × Nat) (i : Nat) :
    Nat × Nat × Nat × Nat × Nat :=
  let (a, b, c, d, e) := st
  let f :=
    if i < 20 then (b &&& c) ||| ((0xFFFFFFFF ^^^ b) &&& d)
    else if i < 40 then b ^^^ c ^^^ d
    else if i < 60 then (b &&& c) ||| (b &&& d) ||| (c &&& d)
    else b ^^^ c ^^^ d
  let k :=
    if i < 20 then 0x5A827999
    else if i < 40 then 0x6ED9EBA1
    else if i < 60 then 0x8F1BBCDC
    else 0xCA62C1D6
  let temp := (rotl32 a 5 + f + e + k + w.getD i 0) % 4294967296
  (temp, a, rotl32 b 30, c, d)

/-- Process one 64-byte chunk, updating the five hash words. -/
def sha1Chunk (h : Nat × Nat × Nat × Nat × Nat) (chunk : List Nat) :
    Nat × Nat × Nat × Nat × Nat :=
  let w := sha1Extend 64 (chunkWords chunk)
  let (h0, h1, h2, h3, h4) := h
  let (a, b, c, d, e) := (List.range 80).foldl (sha1Round w) (h0, h1, h2, h3, h4)
  ((h0 + a) % 4294967296, (h1 + b) % 4294967296, (h2 + c) % 4294967296,
   (h3 + d) % 4294967296, (h4 + e) % 4294967296)

/-- The 20-byte SHA-1 digest of a byte sequence. -/
def sha1Digest (msg : List Nat) : List Nat :=
  let (h0, h1, h2, h3, h4) :=
    (toChunks (sha1Pad msg)).foldl sha1Chunk
      (0x67452301, 0xEFCDAB89, 0x98BADCFE, 0x10325476, 0xC3D2E1F0)
  wordBytes h0 ++ wordBytes h1 ++ wordBytes h2 ++ wordBytes h3 ++ wordBytes h4

/-- Big-endian unsigned integer from a byte list. -/
def beToNat (l : List Nat) : Nat :=
  l.foldl (fun acc b => acc * 256 + b) 0

/-- Embedding of `anki_field_checksum` (`app/helper.py`): the first 8 bytes of
the SHA-1 digest of the UTF-8-encoded field, as a big-endian unsigned
integer. -/
def anki_field_checksum (field : String) : Nat :=
  beToNat ((sha1Digest (utf8Encode field)).take 8)

/-- Standard SHA-1 test vector: the digest of the empty message. -/
theorem sha1_empty_vector :
    sha1Digest [] =
      [0xda, 0x39, 0xa3, 0xee, 0x5e, 0x6b, 0x4b, 0x0d, 0x32, 0x55,
       0xbf, 0xef, 0x95, 0x60, 0x18, 0x90, 0xaf, 0xd8, 0x07, 0x09] := by
  decide

/-- Standard SHA-1 test vector: the digest of `"abc"`. -/
theorem sha1_abc_vector :
    sha1Digest (utf8Encode "abc") =
      [0xa9, 0x99, 0x3e, 0x36, 0x47, 0x06, 0x81, 0x6a, 0xba, 0x3e,
       0x25, 0x71, 0x78, 0x50, 0xc2, 0x6c, 0x9c, 0xd0, 0xd8, 0x9d] := by
  decide

/-! ## Service data model (`app/models/flashcards/*`)

Scheduling-relevant fields of the persisted entities, with Python ints
modelled as `Int` (and the unsigned checksum as `Nat`). -/

/-- Card type ids (`CardTypeEnum`). -/
def CardTypeEnum.NEW : Int := 0

/-- Card type ids (`CardTypeEnum`). -/
def CardTypeEnum.LEARNING : Int := 1

/-- Card type ids (`CardTypeEnum`). -/
def CardTypeEnum.REVIEW : Int := 2

/-- Card type ids (`CardTypeEnum`). -/
def CardTypeEnum.RELEARNING : Int := 3

/-- Queue ids (`QueueTypeEnum`), the ones the services use. -/
def QueueTypeEnum.NEW : Int := 0

/-- Queue ids (`QueueTypeEnum`). -/
def QueueTypeEnum.LEARNING : Int := 1

/-- Queue ids (`QueueTypeEnum`). -/
def QueueTypeEnum.REVIEW : Int := 2

/-- The `Card` entity (`app/models/flashcards/card.py`). -/
structure Card where
  id : Int
  nid : Int
  did : Int
  ord : Int
  mod : Int
  usn : Int
  type_id : Int
  queue_id : Int
  due : Int
  ivl : Int
  factor : Int
  reps : Int
  lapses : Int
  left : Int
  odue : Int
  odid : Int
  flags : Int
  data : String
deriving DecidableEq, Repr

/-- The `Note` entity (`app/models/flashcards/note.py`). -/
structure Note where
  id : Int
  guid : String
  mid : Int
  mod : Int
  usn : Int
  tags : String
  flds : String
  sfld : String
  csum : Nat
  flags : Int
  data : String
deriving DecidableEq, Repr

/-- The `Notetype` entity, with the fields the card service reads. -/
structure Notetype where
  id : Int
  name : String
deriving DecidableEq, Repr

/-- The `Template` entity, with the fields the card service reads. -/
structure Template where
  ntid : Int
  ord : Int
deriving DecidableEq, Repr

/-- The `Deck` entity (`app/models/flashcards/deck.py`). -/
structure Deck where
  id : Int
  name : String
  mtime_secs : Int
  usn : Int
  collection_id : Int
  config_id : Int
deriving DecidableEq, Repr

/-- The `RevLog` entity (`app/models/flashcards/review_log.py`). -/
structure RevLog where
  id : Int
  cid : Int
  usn : Int
  ease : Int
  ivl : Int
  lastIvl : Int
  factor : Int
  time : Int
  type : Int
deriving DecidableEq, Repr

/-- The database state visible to the card and deck services. -/
structure Db where
  decks : List Deck
  notetypes : List Notetype
  templates : List Template
  notes : List Note
  cards : List Card
  revlogs : List RevLog
deriving DecidableEq, Repr

/-- Modelled from the spec: `get_user_localtime` is imported by the card
service from `app/helper.py` but is absent from the sources; per the spec's
timestamp rule (and the sibling `get_modification_epoch`), it is the current
UTC instant minus the caller's timezone offset in minutes, and the services
take its epoch-seconds value. `now` is the current UTC instant in epoch
seconds. -/
def get_user_localtime (now : Int) (user_timezone_offset_minutes : Int) : Int :=
  now - 60 * user_timezone_offset_minutes

/-! ## Review engine (`Service.review_card`)

The pure state transition on one card; `now` is the current UTC instant in
epoch seconds. Python's `int(x)` on the float products is modelled as exact
rational arithmetic truncated toward zero (`Int.tdiv`):
`int(ivl * 1.2)` = `(ivl * 12).tdiv 10`,
`int(ivl * factor / 1000)` = `(ivl * factor).tdiv 1000`, and
`int(ivl * factor / 1000 * 1.3)` = `(ivl * factor * 13).tdiv 10000`. -/
def review_card (card : Card) (ease : Int) (review_time_ms : Int)
    (now : Int) (user_timezone_offset_minutes : Int) : Card × RevLog :=
  let mod := get_user_localtime now user_timezone_offset_minutes
  let last_ivl := card.ivl
  let revlog_entry : RevLog :=
    { id := mod * 1000, cid := card.id, usn := 0, ease := ease,
      ivl := last_ivl, lastIvl := last_ivl, factor := card.factor,
      time := review_time_ms, type := card.type_id }
  let card :=
    if card.type_id = CardTypeEnum.NEW then
      { card with type_id := CardTypeEnum.LEARNING,
                  queue_id := QueueTypeEnum.LEARNING,
                  ivl := 0, due := mod + 600 }
    else if card.type_id = CardTypeEnum.LEARNING then
      { card with type_id := CardTypeEnum.REVIEW,
                  queue_id := QueueTypeEnum.REVIEW,
                  ivl := 1, due := mod + 86400 }
    else if card.type_id = CardTypeEnum.REVIEW then
      if ease = 1 then
        { card with lapses := card.lapses + 1, ivl := 1, due := mod + 86400,
                    factor := max 1300 (card.factor - 200) }
      else
        let card :=
          if ease = 2 then
            { card with ivl := max 1 ((card.ivl * 12).tdiv 10),
                        factor := max 1300 (card.factor - 150) }
          else if ease = 3 then
            { card with ivl := max 1 ((card.ivl * card.factor).tdiv 1000) }
          else if ease = 4 then
            { card with ivl := max 1 ((card.ivl * card.factor * 13).tdiv 10000) }
          else card
        { card with due := mod + card.ivl * 86400 }
    else if card.type_id = CardTypeEnum.RELEARNING then
      { card with type_id := CardTypeEnum.REVIEW,
                  queue_id := QueueTypeEnum.REVIEW,
                  ivl := 1, due := mod + 86400 }
    else card
  ({ card with reps := card.reps + 1, mod := mod }, revlog_entry)

/-- One review step applied to a card state: the input tuple carries
(ease, review_time_ms, now, user_timezone_offset_minutes). -/
def review_step (card : Card) (r : Int × Int × Int × Int) : Card :=
  (review_card card r.1 r.2.1 r.2.2.1 r.2.2.2).1

/-- A whole sequence of `review_card` calls applied to one card. -/
def review_seq (card : Card) (rs : List (Int × Int × Int × Int)) : Card :=
  rs.foldl review_step card

/-! ## Card and deck service operations (`app/api/routers/flashcards/service.py`)

Each operation is a function of the database state and its inputs; the
current UTC instant `now` (epoch seconds) and, for `create_card`, the random
note guid are passed as parameters. A raised `ValueError`/`IndexError` is an
`Except.error` carrying the message; the returned state reflects exactly the
commits performed before the exception is raised (for the lookup and
duplicate errors that is the unmodified input state, while the final unpack
`ValueError` of `create_card` is raised after both commits). -/

/-- The `FlashcardCreateOutput` schema fields the service fills in. -/
structure FlashcardCreateOutput where
  card_id : Int
  note_id : Int
  deck : String
  front : String
  back : String
  tags : String
  created_at : Int
deriving DecidableEq, Repr

/-- The `FlashcardUpdateOutput` schema fields the service fills in. -/
structure FlashcardUpdateOutput where
  card_id : Int
  note_id : Int
  deck : String
  front : String
  back : String
  tags : String
  updated_at : Int
deriving DecidableEq, Repr

/-- The `FlashcardDeleteOutput` schema fields the service fills in. -/
structure FlashcardDeleteOutput where
  card_id : Int
  note_id : Int
  deleted_at : Int
deriving DecidableEq, Repr

/-- The `DeckUpdateOutput` schema fields the service fills in. -/
structure DeckUpdateOutput where
  name : String
  updated_name : Option String
  updated_config_id : Option Int
  updated_at : Int
deriving DecidableEq, Repr

/-- The `DeckDeleteOutput` schema fields the service fills in. -/
structure DeckDeleteOutput where
  name : String
  deleted_cards : Nat
  deleted_notes : Nat
  deleted_at : Int
deriving DecidableEq, Repr

/-- The note-field joiner: `f'{front}\x1f{back}'`. -/
def joinFlds (front back : String) : String :=
  front ++ "\x1f" ++ back

/-- The tag wrapper `f' {tags.strip()} ' if tags else ''`. -/
def wrapTags (tags : String) : String :=
  if tags = "" then "" else " " ++ String.mk (pyStrip tags.data) ++ " "

/-- The duplicate-note error message of `create_card`. -/
def dupNoteMsg : String :=
  "Note with same sort field already exists in this notetype."

/-- The card-creation loop of `create_card`: one card per template of the
notetype, each card's `due` being one more than the maximum `due` among
NEW-type/NEW-queue cards of the deck visible at that point (the session
autoflushes, so cards created for earlier templates are visible). Returns
the full card table and the created cards in order. -/
def createCardsLoop (deckId noteId : Int) (mod : Int) :
    List Template → List Card × List Card → List Card × List Card
  | [], acc => acc
  | t :: ts, (cardsSoFar, created) =>
    let dues := cardsSoFar.filterMap (fun c =>
      if c.did = deckId ∧ c.type_id = CardTypeEnum.NEW ∧
         c.queue_id = QueueTypeEnum.NEW then some c.due else none)
    let max_due := listMax dues
    let card : Card :=
      { id := nextId (cardsSoFar.map (·.id)), nid := noteId, did := deckId,
        ord := t.ord, mod := mod, usn := 0,
        type_id := CardTypeEnum.NEW, queue_id := QueueTypeEnum.NEW,
        due := max_due + 1, ivl := 0, factor := 2500, reps := 0, lapses := 0,
        left := 0, odue := 0, odid := 0, flags := 0, data := "" }
    createCardsLoop deckId noteId mod ts (cardsSoFar ++ [card], created ++ [card])

/-- Embedding of `Service.create_card`. `guid` models `uuid4().hex`. -/
def create_card (db : Db) (deck_name type_name front back tags : String)
    (user_timezone_offset_minutes : Int) (guid : String) (now : Int) :
    Db × Except String FlashcardCreateOutput :=
  match db.decks.find? (fun d => d.name == deck_name) with
  | none => (db, .error ("Deck with name " ++ deck_name ++ " not found."))
  | some deck =>
    let mod := get_user_localtime now user_timezone_offset_minutes
    match db.notetypes.find? (fun nt => nt.name == type_name) with
    | none => (db, .error ("No notetype found for " ++ type_name))
    | some notetype =>
      let templates := db.templates.filter (fun t => t.ntid == notetype.id)
      let csum := anki_field_checksum front
      match db.notes.find? (fun n => n.csum == csum && n.mid == notetype.id) with
      | some _ => (db, .error dupNoteMsg)
      | none =>
        let note : Note :=
          { id := nextId (db.notes.map (·.id)), guid := guid,
            mid := notetype.id, mod := mod, usn := 0,
            tags := wrapTags tags,
            flds := joinFlds front back, sfld := front, csum := csum,
            flags := 0, data := "" }
        let dbWithNote := { db with notes := db.notes ++ [note] }
        let result := createCardsLoop deck.id note.id mod templates (db.cards, [])
        match result.2 with
        | [] => (dbWithNote, .error "list index out of range")
        | c0 :: _ =>
          match splitCh '\x1f' note.flds.data with
          | [f, b] =>
            ({ dbWithNote with cards := result.1 },
             .ok { card_id := c0.id, note_id := note.id, deck := deck.name,
                   front := String.mk f, back := String.mk b,
                   tags := String.mk (pyStrip note.tags.data),
                   created_at := c0.mod })
          | _ =>
            ({ dbWithNote with cards := result.1 },
             .error "too many values to unpack (expected 2)")

/-- Embedding of `Service.update_card`. -/
def update_card (db : Db) (card_id : Int) (front back tags : Option String)
    (user_timezone_offset_minutes : Int) (now : Int) :
    Db × Except String FlashcardUpdateOutput :=
  if front = none ∧ back = none ∧ tags = none then
    (db, .error ("At least one field (front, back, or tags) must be " ++
                 "provided for update"))
  else
    match db.cards.find? (fun c => c.id == card_id) with
    | none => (db, .error ("Card with id " ++ toString card_id ++ " not found"))
    | some card =>
      match db.notes.find? (fun n => n.id == card.nid),
            db.decks.find? (fun d => d.id == card.did) with
      | some note, some deck =>
        let mod := get_user_localtime now user_timezone_offset_minutes
        let fields := splitCh '\x1f' note.flds.data
        let current_front := String.mk (fields.getD 0 [])
        let current_back := String.mk (fields.getD 1 [])
        let new_front := front.getD current_front
        let new_back := back.getD current_back
        let new_tags := tags.getD (String.mk (pyStrip note.tags.data))
        let note' := { note with
          flds := joinFlds new_front new_back,
          sfld := new_front,
          csum := anki_field_checksum new_front,
          tags := wrapTags new_tags,
          mod := mod }
        let card' := { card with mod := mod }
        ({ db with
            notes := db.notes.map (fun n => if n.id = note.id then note' else n),
            cards := db.cards.map (fun c => if c.id = card.id then card' else c) },
         .ok { card_id := card.id, note_id := note.id, deck := deck.name,
               front := new_front, back := new_back, tags := new_tags,
               updated_at := mod })
      | _, _ =>
        (db, .error ("Card with id " ++ toString card_id ++ " not found"))

/-- Embedding of `Service.delete_card`. -/
def delete_card (db : Db) (card_id : Int)
    (user_timezone_offset_minutes : Int) (now : Int) :
    Db × Except String FlashcardDeleteOutput :=
  match db.cards.find? (fun c => c.id == card_id) with
  | none => (db, .error ("Card with id " ++ toString card_id ++ " not found"))
  | some card =>
    let note_id := card.nid
    let deleted_at := get_user_localtime now user_timezone_offset_minutes
    let cards' := db.cards.filter (fun c => c.id ≠ card.id)
    let remaining := cards'.filter (fun c => c.nid = note_id)
    let notes' :=
      if remaining.length = 0 then db.notes.filter (fun n => n.id ≠ note_id)
      else db.notes
    ({ db with cards := cards', notes := notes' },
     .ok { card_id := card_id, note_id := note_id, deleted_at := deleted_at })

/-- Embedding of `Service.update_deck`. -/
def update_deck (db : Db) (deck_id : Int) (new_name : Option String)
    (config_id : Option Int) (user_timezone_offset_minutes : Int) (now : Int) :
    Db × Except String DeckUpdateOutput :=
  match db.decks.find? (fun d => d.id == deck_id) with
  | none => (db, .error ("Deck with id=" ++ toString deck_id ++ " not found"))
  | some deck =>
    let (name1, updated_name) :=
      match new_name with
      | some nn => if nn ≠ "" ∧ nn ≠ deck.name then (nn, some nn)
                   else (deck.name, none)
      | none => (deck.name, none)
    let (cfg1, updated_config_id) :=
      match config_id with
      | some c => if c ≠ deck.config_id then (c, some c) else (deck.config_id, none)
      | none => (deck.config_id, none)
    let mtime := get_user_localtime now user_timezone_offset_minutes
    let deck' := { deck with name := name1, config_id := cfg1, mtime_secs := mtime }
    ({ db with decks := db.decks.map (fun d => if d.id = deck.id then deck' else d) },
     .ok { name := deck'.name, updated_name := updated_name,
           updated_config_id := updated_config_id, updated_at := deck'.mtime_secs })

/-- Embedding of `Service.delete_deck`: the service itself deletes only the
deck row (cascades are delegated to the schema) and reports card/orphan
counts computed beforehand. -/
def delete_deck (db : Db) (deck_id : Int)
    (user_timezone_offset_minutes : Int) (now : Int) :
    Db × Except String DeckDeleteOutput :=
  match db.decks.find? (fun d => d.id == deck_id) with
  | none => (db, .error ("Deck with id=" ++ toString deck_id ++ " not found"))
  | some deck =>
    let cards := db.cards.filter (fun c => c.did = deck.id)
    let deleted_cards := cards.length
    let note_ids := (cards.map (·.nid)).dedup
    let deleted_notes := (note_ids.filter (fun nid =>
      (db.cards.filter (fun c => c.nid = nid ∧ c.did ≠ deck.id)).length = 0)).length
    let deleted_at := get_user_localtime now user_timezone_offset_minutes
    ({ db with decks := db.decks.filter (fun d => d.id ≠ deck.id) },
     .ok { name := deck.name, deleted_cards := deleted_cards,
           deleted_notes := deleted_notes, deleted_at := deleted_at })

/-! ## Import-library content validators (`flashcard_importer/utils/validators.py`)

The regular expressions are embedded as structurally recursive scanners with
the same matching semantics. -/

/-- Does a `<[^>]+>` match start at a `<` whose remainder is `cs`? That is:
the next character exists, is not `>`, and some later `>` closes the tag. -/
def tagStartAhead : List Char → Bool
  | [] => false
  | d :: ds => d ≠ '>' && (d :: ds).contains '>'

/-- Worker for `stripTags`: the `Bool` state is true while consuming a
matched tag, up to and including its first `>`. -/
def stripTagsAux : Bool → List Char → List Char
  | _, [] => []
  | false, c :: cs =>
    if c = '<' && tagStartAhead cs then stripTagsAux true cs
    else c :: stripTagsAux false cs
  | true, c :: cs =>
    if c = '>' then stripTagsAux false cs else stripTagsAux true cs

/-- Model of `re.sub(r'<[^>]+>', '', content)`: every leftmost occurrence of
`<`, one or more non-`>` characters, `>` is removed. -/
def stripTags (l : List Char) : List Char :=
  stripTagsAux false l

/-- Model of `bool(re.search(r'<[^>]+>', content))` (`contains_html`). -/
def hasTag : List Char → Bool
  | [] => false
  | c :: cs => (c = '<' && tagStartAhead cs) || hasTag cs

/-- Does a match of the cloze pattern `\{\{c(\d+)::(.+?)(?:::(.+?))?\}\}`
(DOTALL) start at the head of the list? The inner groups reduce to: at least
one character, then `}}` somewhere after it. -/
def clozeAt : List Char → Bool
  | '{' :: '{' :: 'c' :: rest =>
    let ds := rest.takeWhile Char.isDigit
    let r1 := rest.dropWhile Char.isDigit
    !ds.isEmpty &&
      (match r1 with
       | ':' :: ':' :: r2 => containsSub ['}', '}'] (r2.drop 1)
       | _ => false)
  | _ => false

/-- Model of `CardValidator.is_cloze_card`: the cloze pattern occurs
somewhere in the text. -/
def is_cloze_card : List Char → Bool
  | [] => false
  | c :: cs => clozeAt (c :: cs) || is_cloze_card cs

/-- Model of `CardValidator.validate_content` as a validity predicate: the
content is non-empty and non-blank, and its stripped length is between the
1-character minimum and the 50000-character maximum. -/
def validate_content_ok (content : List Char) : Bool :=
  let stripped := pyStrip content
  !content.isEmpty && !stripped.isEmpty &&
    decide (1 ≤ stripped.length) && decide (stripped.length ≤ 50000)

/-- Consume a lowercase literal case-insensitively (model of the
`re.IGNORECASE` literal parts of the header patterns). -/
def matchCI : List Char → List Char → Option (List Char)
  | [], l => some l
  | _ :: _, [] => none
  | p :: ps, c :: cs => if c.toLower = p then matchCI ps cs else none

/-- Consume `\s+` (at least one whitespace character, maximal run). -/
def consumeWsPlus : List Char → Option (List Char)
  | [] => none
  | c :: cs => if pyWs c then some (cs.dropWhile pyWs) else none

/-- The character class `[:\s]`. -/
def isColonWs (c : Char) : Bool :=
  c = ':' || pyWs c

/-- Consume `(\d+)` and return its numeric value and the remainder. -/
def digitsVal (l : List Char) : Option (Nat × List Char) :=
  let ds := l.takeWhile Char.isDigit
  if ds.isEmpty then none
  else some (ds.foldl (fun a c => a * 10 + (c.toNat - 48)) 0, l.dropWhile Char.isDigit)

/-- Model of `AnkiHeaderParser.DECK_COLUMN_PATTERN.match(line.strip())`,
pattern `^#deck\s+column[:\s]+(\d+)` with `re.IGNORECASE`, yielding the
declared (1-based, per the spec) column number. -/
def parse_deck_column (line : String) : Option Nat :=
  match pyStrip line.data with
  | '#' :: r0 =>
    (matchCI "deck".data r0).bind fun r1 =>
    (consumeWsPlus r1).bind fun r2 =>
    (matchCI "column".data r2).bind fun r3 =>
    match r3 with
    | c :: cs =>
      if isColonWs c then (digitsVal (cs.dropWhile isColonWs)).map (·.1)
      else none
    | [] => none
  | _ => none

/-- Embedding of `CardValidator.strip_html`: tag removal, then the
five-entity substitution table, then the three `<br>` spellings. -/
def CardValidator.strip_html (content : List Char) : List Char :=
  let r := stripTags content
  let r := pyReplace "&nbsp;".data " ".data r
  let r := pyReplace "&amp;".data "&".data r
  let r := pyReplace "&lt;".data "<".data r
  let r := pyReplace "&gt;".data ">".data r
  let r := pyReplace "&quot;".data "\"".data r
  let r := pyReplace "<br>".data "\n".data r
  let r := pyReplace "<br/>".data "\n".data r
  let r := pyReplace "<br />".data "\n".data r
  r

/-! ## Import-library HTML handler (`flashcard_importer/utils/html_handler.py`) -/

/-- Try to match the remainder (after `<`) of `<br\s*/?>` (IGNORECASE);
returns the number of characters consumed after the `<`. -/
def tryBr : List Char → Option Nat
  | b :: r :: rest =>
    if b.toLower = 'b' ∧ r.toLower = 'r' then
      let wsn := (rest.takeWhile pyWs).length
      match rest.dropWhile pyWs with
      | '>' :: _ => some (2 + wsn + 1)
      | '/' :: '>' :: _ => some (2 + wsn + 2)
      | _ => none
    else none
  | _ => none

/-- Model of `re.sub(r'<br\s*/?>', '\n', result, flags=re.IGNORECASE)`; the
`Nat` state counts matched characters still to skip. -/
def subBrAux : Nat → List Char → List Char
  | k + 1, _ :: cs => subBrAux k cs
  | _, [] => []
  | 0, c :: cs =>
    if c = '<' then
      match tryBr cs with
      | some n => '\n' :: subBrAux n cs
      | none => c :: subBrAux 0 cs
    else c :: subBrAux 0 cs

/-- Case-insensitive `startsWith` against a lowercase literal. -/
def startsWithCI : List Char → List Char → Bool
  | [], _ => true
  | _ :: _, [] => false
  | p :: ps, c :: cs => c.toLower = p && startsWithCI ps cs

/-- Model of `re.sub(lit, rep, s, flags=re.IGNORECASE)` for a literal
pattern `lit` (non-empty, given lowercase) and one-character replacement. -/
def subLitCIAux (lit : List Char) (rep : Char) : Nat → List Char → List Char
  | k + 1, _ :: cs => subLitCIAux lit rep k cs
  | _, [] => []
  | 0, c :: cs =>
    if startsWithCI lit (c :: cs) then
      rep :: subLitCIAux lit rep (lit.length - 1) cs
    else c :: subLitCIAux lit rep 0 cs

/-- Modelled from the Python standard library `html.unescape`, which the
HTML handler calls: character references are decoded in place; a string
without `&` is returned unchanged (as in CPython). The named-reference
table is restricted to the references exercised in this development
(`lt`, `gt`, `amp`, `quot`, `nbsp`, all in `;`-terminated form);
anything else after `&` is left unchanged, as CPython does for unknown
names. Returns the decoded character and the number of characters consumed
after the `&`. -/
def tryEntity : List Char → Option (Nat × Char)
  | 'l' :: 't' :: ';' :: _ => some (3, '<')
  | 'g' :: 't' :: ';' :: _ => some (3, '>')
  | 'a' :: 'm' :: 'p' :: ';' :: _ => some (4, '&')
  | 'q' :: 'u' :: 'o' :: 't' :: ';' :: _ => some (5, '"')
  | 'n' :: 'b' :: 's' :: 'p' :: ';' :: _ => some (5, ' ')
  | _ => none

/-- Worker for `pyUnescape`. -/
def pyUnescapeAux : Nat → List Char → List Char
  | k + 1, _ :: cs => pyUnescapeAux k cs
  | _, [] => []
  | 0, c :: cs =>
    if c = '&' then
      match tryEntity cs with
      | some (n, r) => r :: pyUnescapeAux n cs
      | none => c :: pyUnescapeAux 0 cs
    else c :: pyUnescapeAux 0 cs

/-- Model of `html.unescape` (see `tryEntity`). -/
def pyUnescape (l : List Char) : List Char :=
  pyUnescapeAux 0 l

/-- Is there a `\n` inside the whitespace run that starts here? -/
def nlAhead (cs : List Char) : Bool :=
  (cs.takeWhile pyWs).contains '\n'

/-- Model of `re.sub(r'\n\s*\n', '\n\n', result)`: each leftmost match runs
from a `\n` through the last `\n` of the whitespace run that follows it and
is replaced by exactly two newlines. The `Bool` state is true while
consuming the matched span. -/
def collapseNLAux : Bool → List Char → List Char
  | _, [] => []
  | false, c :: cs =>
    if c = '\n' && nlAhead cs then '\n' :: '\n' :: collapseNLAux true cs
    else c :: collapseNLAux false cs
  | true, c :: cs =>
    if c = '\n' then
      if nlAhead cs then collapseNLAux true cs else collapseNLAux false cs
    else collapseNLAux true cs

/-- Model of `re.sub(r'[ \t]+', ' ', result)`: each maximal run of spaces
and tabs becomes one space. The `Bool` state is true inside a run. -/
def collapseSPAux : Bool → List Char → List Char
  | _, [] => []
  | inRun, c :: cs =>
    if c = ' ' || c = '\t' then
      if inRun then collapseSPAux true cs else ' ' :: collapseSPAux true cs
    else c :: collapseSPAux false cs

/-- Embedding of `HtmlHandler.strip_html`: `<br>`/closing-tag newlining,
tag removal, entity unescaping, blank-line and space collapsing, trim. -/
def HtmlHandler.strip_html (content : List Char) : List Char :=
  let r := subBrAux 0 content
  let r := subLitCIAux "</p>".data '\n' 0 r
  let r := subLitCIAux "</div>".data '\n' 0 r
  let r := subLitCIAux "</li>".data '\n' 0 r
  let r := stripTags r
  let r := pyUnescape r
  let r := collapseNLAux false r
  let r := collapseSPAux false r
  pyStrip r

/-! ## Deck detector / missing-deck handler (`flashcard_importer/utils/deck_detector.py`) -/

/-- Model of the `f"{percent:.1f}"` rendering of
`percent = without/total*100 if total > 0 else 0`, as exact rational
rounding (round-half-even) to one decimal place. -/
def formatPercent1 (without total : Nat) : String :=
  if total = 0 then "0.0"
  else
    let n := without * 1000
    let q := n / total
    let r := n % total
    let p :=
      if total < 2 * r then q + 1
      else if 2 * r < total then q
      else if q % 2 = 0 then q else q + 1
    toString (p / 10) ++ "." ++ toString (p % 10)

/-- The all-cards-missing warning text of `get_warning_message`. -/
def allMissingMsg (total_cards : Nat) : String :=
  "Warning: All " ++ toString total_cards ++
  " cards are missing deck information. They will be imported to a " ++
  "default deck. Consider organizing them into decks after import."

/-- The some-cards-missing warning text of `get_warning_message`. -/
def someMissingMsg (cards_without_deck total_cards : Nat) : String :=
  "Warning: " ++ toString cards_without_deck ++ " of " ++
  toString total_cards ++ " cards (" ++
  formatPercent1 cards_without_deck total_cards ++
  "%) are missing deck information. These will be imported to a default deck."

/-- Embedding of `MissingDeckHandler.get_warning_message`. -/
def MissingDeckHandler.get_warning_message
    (cards_without_deck total_cards : Nat) : String :=
  if cards_without_deck = total_cards then allMissingMsg total_cards
  else if 0 < cards_without_deck then
    someMissingMsg cards_without_deck total_cards
  else ""

/-! ## Import-library flashcard model and the plain-text line parser -/

/-- The import library's `CardType` enumeration (basic/reversed/cloze). -/
inductive ImpCardType where
  | BASIC
  | BASIC_REVERSED
  | CLOZE
deriving DecidableEq, Repr

/-- The import library's `Flashcard` dataclass, with the fields the parsers
fill in (`extra`, `source_file` and the capture timestamp are provenance
only and not modelled). -/
structure ImpFlashcard where
  front : List Char
  back : List Char
  deck_name : Option (List Char)
  tags : List (List Char)
  card_type : ImpCardType
  html_enabled : Bool
deriving DecidableEq, Repr

/-- The `Flashcard.__post_init__` normalization: front/back stripped, a
truthy deck name stripped, tags stripped and blank ones dropped. -/
def mkFlashcard (front back : List Char) (deck_name : Option (List Char))
    (tags : List (List Char)) (card_type : ImpCardType)
    (html_enabled : Bool) : ImpFlashcard :=
  { front := pyStrip front, back := pyStrip back,
    deck_name := deck_name.map (fun d => if d = [] then d else pyStrip d),
    tags := (tags.map pyStrip).filter (fun t => t ≠ []),
    card_type := card_type, html_enabled := html_enabled }

/-- Embedding of `TxtParser._parse_line` for one data line: split on the
separator, require at least two fields, validate the stripped front and
back, and resolve the optional deck/tags columns (declared 1-based values
`deckCol`/`tagsCol`, converted to 0-based by subtracting 1, with Python's
negative-index semantics via `pyGetIndex`; an index the bounds check lets
through is always resolvable here, so the unreachable `IndexError` case
yields no value). -/
def TxtParser.parse_line (line : List Char) (separator : Char)
    (html_enabled : Bool) (deckCol tagsCol : Option Nat) : Option ImpFlashcard :=
  let parts := splitCh separator line
  if parts.length < 2 then none
  else
    let front := pyStrip (parts.getD 0 [])
    let back := pyStrip (parts.getD 1 [])
    if !validate_content_ok front then none
    else if !validate_content_ok back then none
    else
      let deck_name :=
        match deckCol with
        | none => none
        | some nv =>
          let deck_col : Int := (nv : Int) - 1
          if deck_col < (parts.length : Int) then
            match pyGetIndex parts deck_col with
            | some v => if pyStrip v = [] then none else some (pyStrip v)
            | none => none
          else none
      let tags :=
        match tagsCol with
        | none => []
        | some nv =>
          let tags_col : Int := (nv : Int) - 1
          if tags_col < (parts.length : Int) then
            match pyGetIndex parts tags_col with
            | some v => if pyStrip v = [] then [] else pySplitWs (pyStrip v)
            | none => []
          else []
      let card_type :=
        if is_cloze_card front then ImpCardType.CLOZE else ImpCardType.BASIC
      let has_html := html_enabled || hasTag front || hasTag back
      some (mkFlashcard front back deck_name tags card_type has_html)

/-! ## Import validation endpoint (`app/api/routers/import_cards/router.py`) -/

/-- The body of the `/import/validate` response. -/
structure ValidateResponse where
  valid : Bool
  total_cards : Nat
  issues : List String
  can_import : Bool
deriving DecidableEq, Repr

/-- Embedding of `validate_file`'s successful path, as a function of the
preview's card count (`len(result.cards)`) and deck-detected flag. -/
def validate_file (total_cards : Nat) (has_deck_info : Bool) : ValidateResponse :=
  let issues :=
    (if total_cards = 0 then ["No valid cards found in file"] else []) ++
    (if has_deck_info then []
     else ["No deck information found - cards will need deck assignment"])
  { valid := issues.length == 0 || decide (0 < total_cards),
    total_cards := total_cards,
    issues := issues,
    can_import := decide (0 < total_cards) }

/-! ## Claims about the review engine -/

/-- Truncating and flooring division agree underneath the `max 1` clamp for
a positive divisor. -/
theorem max_one_tdiv_eq_max_one_fdiv (a b : Int) (hb : 0 < b) :
    max 1 (a.tdiv b) = max 1 (a.fdiv b) := by
  rcases le_or_lt 0 a with ha | ha
  · rw [Int.fdiv_eq_tdiv ha (le_of_lt hb)]
  · have h1 : a.tdiv b ≤ 0 := by
      have h2 := Int.tdiv_nonneg (a := -a) (b := b) (by omega) (le_of_lt hb)
      rw [Int.neg_tdiv] at h2
      omega
    have h2 : a.fdiv b ≤ 0 := le_of_lt (Int.fdiv_neg' ha hb)
    rw [max_eq_left (by omega), max_eq_left (by omega)]

/-- Claim C1: a successful review of a REVIEW-state card with ease 3 (Good)
sets the interval to `max 1 ⌊ivl * factor / 1000⌋` and the due instant to
the review timestamp plus interval times 86400 seconds; ease 4 (Easy) sets
the interval to `max 1 ⌊ivl * factor / 1000 * 1.3⌋`; in particular interval
10 and factor 2500 give 25 (Good) and 32 (Easy). -/
theorem claim_C1_review_good_easy (card : Card) (t now off : Int)
    (h : card.type_id = CardTypeEnum.REVIEW) :
    (review_card card 3 t now off).1.ivl
        = max 1 ((card.ivl * card.factor).fdiv 1000) ∧
    (review_card card 3 t now off).1.due
        = get_user_localtime now off
          + (review_card card 3 t now off).1.ivl * 86400 ∧
    (review_card card 4 t now off).1.ivl
        = max 1 ((card.ivl * card.factor * 13).fdiv 10000) ∧
    (review_card card 4 t now off).1.due
        = get_user_localtime now off
          + (review_card card 4 t now off).1.ivl * 86400 ∧
    (card.ivl = 10 → card.factor = 2500 →
      (review_card card 3 t now off).1.ivl = 25 ∧
      (review_card card 4 t now off).1.ivl = 32) := by
  rw [CardTypeEnum.REVIEW] at h
  simp only [review_card, h, CardTypeEnum.NEW, CardTypeEnum.LEARNING,
    CardTypeEnum.REVIEW, CardTypeEnum.RELEARNING]
  norm_num
  refine ⟨max_one_tdiv_eq_max_one_fdiv _ _ (by norm_num),
          max_one_tdiv_eq_max_one_fdiv _ _ (by norm_num), ?_⟩
  intro h10 h2500
  rw [h10, h2500]
  decide

/-- Witness for claim C1 at a concrete card. -/
def c1Card : Card :=
  { id := 7, nid := 3, did := 1, ord := 0, mod := 0, usn := 0,
    type_id := 2, queue_id := 2, due := 0, ivl := 10, factor := 2500,
    reps := 4, lapses := 0, left := 0, odue := 0, odid := 0, flags := 0,
    data := "" }

/-- Witness for claim C1: the REVIEW card with interval 10 and factor 2500,
reviewed at epoch second 1000 with no timezone offset. -/
theorem claim_C1_review_good_easy_witness :
    (review_card c1Card 3 77 1000 0).1.ivl
        = max 1 ((c1Card.ivl * c1Card.factor).fdiv 1000) ∧
    (review_card c1Card 3 77 1000 0).1.due
        = get_user_localtime 1000 0
          + (review_card c1Card 3 77 1000 0).1.ivl * 86400 ∧
    (review_card c1Card 4 77 1000 0).1.ivl
        = max 1 ((c1Card.ivl * c1Card.factor * 13).fdiv 10000) ∧
    (review_card c1Card 4 77 1000 0).1.due
        = get_user_localtime 1000 0
          + (review_card c1Card 4 77 1000 0).1.ivl * 86400 ∧
    (c1Card.ivl = 10 → c1Card.factor = 2500 →
      (review_card c1Card 3 77 1000 0).1.ivl = 25 ∧
      (review_card c1Card 4 77 1000 0).1.ivl = 32) :=
  claim_C1_review_good_easy c1Card 77 1000 0 (by decide)

/-- One `review_card` call never brings an ease factor that is at least
1300 below 1300: the Again/Hard branches clamp with `max 1300`, and no
other branch changes the factor. -/
theorem review_card_factor_floor (c : Card) (e t now off : Int)
    (h : 1300 ≤ c.factor) : 1300 ≤ (review_card c e t now off).1.factor := by
  unfold review_card
  dsimp only
  split_ifs <;> simp_all

/-- Claim C2: starting from any card whose factor is at least 1300, no
sequence of `review_card` calls (any eases, any times) ever drives the
stored factor below 1300. -/
theorem claim_C2_factor_floor (card : Card) (h : 1300 ≤ card.factor)
    (rs : List (Int × Int × Int × Int)) :
    1300 ≤ (review_seq card rs).factor := by
  induction rs generalizing card with
  | nil => simpa [review_seq]
  | cons r rs ih =>
    simp only [review_seq, List.foldl_cons]
    exact ih _ (review_card_factor_floor card r.1 r.2.1 r.2.2.1 r.2.2.2 h)

/-- Witness for claim C2: a concrete REVIEW card repeatedly reviewed with
Again and Hard keeps its factor at least 1300. -/
theorem claim_C2_factor_floor_witness :
    1300 ≤ c1Card.factor ∧
    1300 ≤ (review_seq c1Card
      [(1, 5, 1000, 0), (1, 5, 2000, 0), (2, 5, 3000, 0), (1, 5, 4000, 0),
       (2, 5, 5000, 0), (1, 5, 6000, 0), (1, 5, 7000, 0), (1, 5, 8000, 0),
       (1, 5, 9000, 0)]).factor :=
  ⟨by decide, claim_C2_factor_floor c1Card (by decide) _⟩

/-- Claim C3: every `review_card` call produces exactly one RevLog row,
built from the pre-review card state: its interval and last-interval fields
both carry the pre-review interval, its factor and type the pre-review
factor and card type, its time the supplied review duration, and its id the
review timestamp times 1000. -/
theorem claim_C3_revlog_pre_review (card : Card) (e t now off : Int) :
    (review_card card e t now off).2.id = get_user_localtime now off * 1000 ∧
    (review_card card e t now off).2.cid = card.id ∧
    (review_card card e t now off).2.usn = 0 ∧
    (review_card card e t now off).2.ease = e ∧
    (review_card card e t now off).2.ivl = card.ivl ∧
    (review_card card e t now off).2.lastIvl = card.ivl ∧
    (review_card card e t now off).2.factor = card.factor ∧
    (review_card card e t now off).2.time = t ∧
    (review_card card e t now off).2.type = card.type_id := by
  refine ⟨rfl, rfl, rfl, rfl, rfl, rfl, rfl, rfl, rfl⟩

/-! ## Claims about the import validate endpoint and the warning message -/

/-- Claim C6: `/import/validate` computes `valid` as "no issues or at least
one card" and `can_import` as "at least one card"; hence a parse with at
least one card but no deck information reports valid with the no-deck issue
present and can_import true. -/
theorem claim_C6_validate_or_rule (total : Nat) (hasDeck : Bool)
    (h1 : 0 < total) (h2 : hasDeck = false) :
    (validate_file total hasDeck).valid = true ∧
    "No deck information found - cards will need deck assignment"
      ∈ (validate_file total hasDeck).issues ∧
    (validate_file total hasDeck).can_import = true ∧
    (∀ tc hd, (validate_file tc hd).valid
        = ((validate_file tc hd).issues.length == 0 || decide (0 < tc)) ∧
      (validate_file tc hd).can_import = decide (0 < tc)) := by
  subst h2
  refine ⟨by simp [validate_file, h1], ?_, by simp [validate_file, h1], ?_⟩
  · simp [validate_file]
  · intro tc hd
    exact ⟨rfl, rfl⟩

/-- Witness for claim C6: one card, no deck information. -/
theorem claim_C6_validate_or_rule_witness :
    (validate_file 1 false).valid = true ∧
    "No deck information found - cards will need deck assignment"
      ∈ (validate_file 1 false).issues ∧
    (validate_file 1 false).can_import = true ∧
    (∀ tc hd, (validate_file tc hd).valid
        = ((validate_file tc hd).issues.length == 0 || decide (0 < tc)) ∧
      (validate_file tc hd).can_import = decide (0 < tc)) :=
  claim_C6_validate_or_rule 1 false (by decide) rfl

/-- The all-cards-missing warning is never the empty string. -/
theorem allMissingMsg_ne_empty (t : Nat) : allMissingMsg t ≠ "" := by
  intro h
  have h2 : (allMissingMsg t).data = [] := by rw [h]
  simp [allMissingMsg, String.data_append] at h2

/-- The some-cards-missing warning is never the empty string. -/
theorem someMissingMsg_ne_empty (w t : Nat) : someMissingMsg w t ≠ "" := by
  intro h
  have h2 : (someMissingMsg w t).data = [] := by rw [h]
  simp [someMissingMsg, String.data_append] at h2

/-- Counterexample to claim C7 as stated: with zero cards and zero cards
missing a deck, `get_warning_message` returns the "All 0 cards are missing
deck information" message, not the empty string. -/
theorem claim_C7_counterexample :
    MissingDeckHandler.get_warning_message 0 0 ≠ "" := by decide

/-- Claim C7 (amended): `get_warning_message` returns the "All N cards"
message exactly when `without = total` (including `without = total = 0`),
the "X of N cards (P%)" message when `without > 0` and `without ≠ total`
(including `without > total`), and the empty string exactly when
`without = 0 < total`. -/
theorem claim_C7_warning_message_amended (w t : Nat) :
    (w = t → MissingDeckHandler.get_warning_message w t = allMissingMsg t) ∧
    (w ≠ t → 0 < w →
      MissingDeckHandler.get_warning_message w t = someMissingMsg w t) ∧
    (MissingDeckHandler.get_warning_message w t = "" ↔ w = 0 ∧ 0 < t) := by
  refine ⟨fun h => by simp [MissingDeckHandler.get_warning_message, h],
          fun h hw => by simp [MissingDeckHandler.get_warning_message, h, hw],
          ?_⟩
  constructor
  · intro h
    unfold MissingDeckHandler.get_warning_message at h
    split_ifs at h with h1 h2
    · exact absurd h (allMissingMsg_ne_empty t)
    · exact absurd h (someMissingMsg_ne_empty w t)
    · omega
  · rintro ⟨rfl, ht⟩
    simp [MissingDeckHandler.get_warning_message]
    omega

/-- Witness for the amended claim C7: all three branches at concrete
inputs. -/
theorem claim_C7_warning_message_amended_witness :
    MissingDeckHandler.get_warning_message 2 2 = allMissingMsg 2 ∧
    MissingDeckHandler.get_warning_message 1 3 = someMissingMsg 1 3 ∧
    MissingDeckHandler.get_warning_message 0 3 = "" :=
  ⟨(claim_C7_warning_message_amended 2 2).1 rfl,
   (claim_C7_warning_message_amended 1 3).2.1 (by decide) (by decide),
   (claim_C7_warning_message_amended 0 3).2.2.mpr (by decide)⟩

/-! ## Claim C5: the timestamp rule across the mutating operations -/

/-- Every card the creation loop adds carries the creation timestamp. -/
theorem createCardsLoop_created_mod (did nid mod : Int) :
    ∀ (ts : List Template) (cs cr : List Card),
      (∀ c ∈ cr, c.mod = mod) →
      ∀ c ∈ (createCardsLoop did nid mod ts (cs, cr)).2, c.mod = mod := by
  intro ts
  induction ts with
  | nil => intro cs cr h c hc; exact h c hc
  | cons t ts ih =>
    intro cs cr h c hc
    simp only [createCardsLoop] at hc
    refine ih _ _ ?_ c hc
    intro c' hc'
    rcases List.mem_append.mp hc' with h1 | h2
    · exact h c' h1
    · rw [List.mem_singleton.mp h2]

/-- The creation loop makes one card per template. -/
theorem createCardsLoop_created_length (did nid mod : Int) :
    ∀ (ts : List Template) (cs cr : List Card),
      (createCardsLoop did nid mod ts (cs, cr)).2.length
        = cr.length + ts.length := by
  intro ts
  induction ts with
  | nil => intro cs cr; rfl
  | cons t ts ih =>
    intro cs cr
    simp only [createCardsLoop]
    rw [ih]
    simp
    omega

/-- A successful `create_card` reports the computed local timestamp as the
creation instant. -/
theorem create_card_ok_created_at (db : Db) (dn tn f b tg : String)
    (off : Int) (g : String) (now : Int) (db1 : Db)
    (out : FlashcardCreateOutput)
    (h : create_card db dn tn f b tg off g now = (db1, Except.ok out)) :
    out.created_at = get_user_localtime now off := by
  unfold create_card at h
  split at h
  · simp at h
  · rename_i deck hdeck
    split at h
    · simp at h
    · rename_i nt hnt
      dsimp only at h
      split at h
      · simp at h
      · split at h
        · simp at h
        · rename_i c0 rest hcr
          split at h
          case h_2 => simp at h
          injection h with hdb hok
          injection hok with hout
          subst hout
          show c0.mod = get_user_localtime now off
          have hmem : c0 ∈ (createCardsLoop deck.id
              (nextId (db.notes.map (fun x => x.id))) (get_user_localtime now off)
              (db.templates.filter (fun t => t.ntid == nt.id)) (db.cards, [])).2 := by
            rw [hcr]
            exact List.mem_cons_self _ _
          exact createCardsLoop_created_mod _ _ _ _ _ _
            (by intro c hc; cases hc) c0 hmem

/-- A successful `update_card` reports the computed local timestamp as the
update instant. -/
theorem update_card_ok_updated_at (db : Db) (cid : Int)
    (fr bk tg : Option String) (off now : Int) (db2 : Db)
    (out : FlashcardUpdateOutput)
    (h : update_card db cid fr bk tg off now = (db2, Except.ok out)) :
    out.updated_at = get_user_localtime now off := by
  unfold update_card at h
  split_ifs at h
  · simp at h
  · split at h
    · simp at h
    · split at h
      · injection h with hdb hok
        injection hok with hout
        subst hout
        rfl
      · simp at h

/-- A successful `delete_card` reports the computed local timestamp as the
deletion instant. -/
theorem delete_card_ok_deleted_at (db : Db) (cid : Int) (off now : Int)
    (db3 : Db) (out : FlashcardDeleteOutput)
    (h : delete_card db cid off now = (db3, Except.ok out)) :
    out.deleted_at = get_user_localtime now off := by
  unfold delete_card at h
  split at h
  · simp at h
  · injection h with hdb hok
    injection hok with hout
    subst hout
    rfl

/-- A successful `update_deck` reports the computed local timestamp as the
update instant. -/
theorem update_deck_ok_updated_at (db : Db) (did : Int)
    (nn : Option String) (cfg : Option Int) (off now : Int) (db4 : Db)
    (out : DeckUpdateOutput)
    (h : update_deck db did nn cfg off now = (db4, Except.ok out)) :
    out.updated_at = get_user_localtime now off := by
  unfold update_deck at h
  split at h
  · simp at h
  · injection h with hdb hok
    injection hok with hout
    subst hout
    rfl

/-- A successful `delete_deck` reports the computed local timestamp as the
deletion instant. -/
theorem delete_deck_ok_deleted_at (db : Db) (did : Int) (off now : Int)
    (db5 : Db) (out : DeckDeleteOutput)
    (h : delete_deck db did off now = (db5, Except.ok out)) :
    out.deleted_at = get_user_localtime now off := by
  unfold delete_deck at h
  split at h
  · simp at h
  · injection h with hdb hok
    injection hok with hout
    subst hout
    rfl

/-- Claim C5: every mutating card/deck service operation stamps its effects
with the epoch-seconds value of the current UTC instant minus 60 times the
caller-supplied timezone offset in minutes. -/
theorem claim_C5_timestamp_rule
    (db : Db) (now off : Int)
    (dn tn f b tg g : String) (db1 : Db) (o1 : FlashcardCreateOutput)
    (h1 : create_card db dn tn f b tg off g now = (db1, Except.ok o1))
    (c : Card) (e t : Int)
    (cid : Int) (fr bk tg2 : Option String) (db2 : Db)
    (o2 : FlashcardUpdateOutput)
    (h2 : update_card db cid fr bk tg2 off now = (db2, Except.ok o2))
    (cid2 : Int) (db3 : Db) (o3 : FlashcardDeleteOutput)
    (h3 : delete_card db cid2 off now = (db3, Except.ok o3))
    (did : Int) (nn : Option String) (cfg : Option Int) (db4 : Db)
    (o4 : DeckUpdateOutput)
    (h4 : update_deck db did nn cfg off now = (db4, Except.ok o4))
    (did2 : Int) (db5 : Db) (o5 : DeckDeleteOutput)
    (h5 : delete_deck db did2 off now = (db5, Except.ok o5)) :
    o1.created_at = now - 60 * off ∧
    (review_card c e t now off).1.mod = now - 60 * off ∧
    o2.updated_at = now - 60 * off ∧
    o3.deleted_at = now - 60 * off ∧
    o4.updated_at = now - 60 * off ∧
    o5.deleted_at = now - 60 * off := by
  refine ⟨create_card_ok_created_at _ _ _ _ _ _ _ _ _ _ _ h1, ?_,
          update_card_ok_updated_at _ _ _ _ _ _ _ _ _ h2,
          delete_card_ok_deleted_at _ _ _ _ _ _ h3,
          update_deck_ok_updated_at _ _ _ _ _ _ _ _ h4,
          delete_deck_ok_deleted_at _ _ _ _ _ _ h5⟩
  rfl

/-- Witness state for claim C5: one deck, notetype, template, note and
card. -/
def c5Note : Note :=
  { id := 1, guid := "g", mid := 1, mod := 0, usn := 0, tags := "",
    flds := "a\x1fb", sfld := "a", csum := 0, flags := 0, data := "" }

/-- Witness card for claim C5 (a NEW card). -/
def c5Card : Card :=
  { id := 1, nid := 1, did := 1, ord := 0, mod := 0, usn := 0,
    type_id := 0, queue_id := 0, due := 1, ivl := 0, factor := 2500,
    reps := 0, lapses := 0, left := 0, odue := 0, odid := 0, flags := 0,
    data := "" }

/-- Witness database for claim C5. -/
def c5Db : Db :=
  { decks := [{ id := 1, name := "German", mtime_secs := 0, usn := 0,
                collection_id := 1, config_id := 1 }],
    notetypes := [{ id := 1, name := "Basic" }],
    templates := [{ ntid := 1, ord := 0 }],
    notes := [c5Note],
    cards := [c5Card],
    revlogs := [] }

/-- The outputs the five mutating operations produce on `c5Db` at UTC
instant 1000 with a 60-minute offset (so local timestamp `1000 - 3600`). -/
def c5Out1 : FlashcardCreateOutput :=
  { card_id := 2, note_id := 2, deck := "German", front := "new",
    back := "x", tags := "", created_at := -2600 }

/-- See `c5Out1`. -/
def c5Out2 : FlashcardUpdateOutput :=
  { card_id := 1, note_id := 1, deck := "German", front := "upd",
    back := "b", tags := "", updated_at := -2600 }

/-- See `c5Out1`. -/
def c5Out3 : FlashcardDeleteOutput :=
  { card_id := 1, note_id := 1, deleted_at := -2600 }

/-- See `c5Out1`. -/
def c5Out4 : DeckUpdateOutput :=
  { name := "G2", updated_name := some "G2", updated_config_id := none,
    updated_at := -2600 }

/-- See `c5Out1`. -/
def c5Out5 : DeckDeleteOutput :=
  { name := "German", deleted_cards := 1, deleted_notes := 1,
    deleted_at := -2600 }

/-- Witness for claim C5: all six mutating operations on the concrete state
stamp `1000 - 60 * 60`. -/
theorem claim_C5_timestamp_rule_witness :
    c5Out1.created_at = 1000 - 60 * 60 ∧
    (review_card c5Card 3 9 1000 60).1.mod = 1000 - 60 * 60 ∧
    c5Out2.updated_at = 1000 - 60 * 60 ∧
    c5Out3.deleted_at = 1000 - 60 * 60 ∧
    c5Out4.updated_at = 1000 - 60 * 60 ∧
    c5Out5.deleted_at = 1000 - 60 * 60 :=
  claim_C5_timestamp_rule c5Db 1000 60 "German" "Basic" "new" "x" "" "h"
    (create_card c5Db "German" "Basic" "new" "x" "" 60 "h" 1000).1 c5Out1
    (by decide)
    c5Card 3 9
    1 (some "upd") none none
    (update_card c5Db 1 (some "upd") none none 60 1000).1 c5Out2 (by decide)
    1 (delete_card c5Db 1 60 1000).1 c5Out3 (by decide)
    1 (some "G2") none (update_deck c5Db 1 (some "G2") none 60 1000).1 c5Out4
    (by decide)
    1 (delete_deck c5Db 1 60 1000).1 c5Out5 (by decide)

/-! ## Claim C4: duplicate detection in `create_card` -/

/-- A separator-free list is a single `split` piece. -/
theorem splitCh_not_mem (sep : Char) :
    ∀ l : List Char, sep ∉ l → splitCh sep l = [l] := by
  intro l
  induction l with
  | nil => intro _; rfl
  | cons c cs ih =>
    intro h
    rw [splitCh, if_neg (fun he => h (by rw [he]; exact List.mem_cons_self _ _)),
      ih (fun hm => h (List.mem_cons_of_mem c hm))]

/-- Splitting at the first separator splits off a separator-free piece. -/
theorem splitCh_sep_append (sep : Char) (b : List Char) :
    ∀ a : List Char, sep ∉ a →
      splitCh sep (a ++ sep :: b) = a :: splitCh sep b := by
  intro a
  induction a with
  | nil =>
    intro _
    rw [List.nil_append, splitCh, if_pos rfl]
  | cons c a' ih =>
    intro h
    rw [List.cons_append, splitCh,
      if_neg (fun he => h (by rw [he]; exact List.mem_cons_self _ _)),
      ih (fun hm => h (List.mem_cons_of_mem c hm))]

/-- When neither field contains the `U+001F` separator, splitting the
joined `flds` recovers exactly the two fields. -/
theorem splitCh_joinFlds (front back : String)
    (hf : '\x1f' ∉ front.data) (hb : '\x1f' ∉ back.data) :
    splitCh '\x1f' (joinFlds front back).data
      = [front.data, back.data] := by
  have hdata : (joinFlds front back).data
      = front.data ++ '\x1f' :: back.data := by
    unfold joinFlds
    rw [String.data_append, String.data_append, List.append_assoc]
    rfl
  rw [hdata, splitCh_sep_append '\x1f' back.data front.data hf,
    splitCh_not_mem '\x1f' back.data hb]

/-- Shape of a successful `create_card`: with separator-free fields the
call succeeds and appends one note (carrying the checksum of the new front
under the resolved notetype) while leaving decks, notetypes and templates
untouched. -/
theorem create_card_success (db : Db) (dn tn front back tg : String)
    (off : Int) (g : String) (now : Int) (deck : Deck) (nt : Notetype)
    (hdeck : db.decks.find? (fun d => d.name == dn) = some deck)
    (hnt : db.notetypes.find? (fun n => n.name == tn) = some nt)
    (hdup : db.notes.find? (fun n =>
      n.csum == anki_field_checksum front && n.mid == nt.id) = none)
    (htmpl : db.templates.filter (fun t => t.ntid == nt.id) ≠ [])
    (hf : '\x1f' ∉ front.data) (hb : '\x1f' ∉ back.data) :
    (∃ out, (create_card db dn tn front back tg off g now).2 = Except.ok out) ∧
    (create_card db dn tn front back tg off g now).1.decks = db.decks ∧
    (create_card db dn tn front back tg off g now).1.notetypes = db.notetypes ∧
    (create_card db dn tn front back tg off g now).1.templates = db.templates ∧
    ∃ note, (create_card db dn tn front back tg off g now).1.notes
        = db.notes ++ [note] ∧
      note.csum = anki_field_checksum front ∧ note.mid = nt.id := by
  unfold create_card
  rw [hdeck]
  dsimp only
  rw [hnt]
  dsimp only
  rw [hdup]
  dsimp only
  split
  · rename_i hcr
    exfalso
    apply htmpl
    have hlen := createCardsLoop_created_length deck.id
      (nextId (db.notes.map (fun x => x.id))) (get_user_localtime now off)
      (db.templates.filter (fun t => t.ntid == nt.id)) db.cards []
    rw [hcr] at hlen
    simp only [List.length_nil] at hlen
    exact List.length_eq_zero.mp (by omega)
  · rw [splitCh_joinFlds front back hf hb]
    exact ⟨⟨_, rfl⟩, rfl, rfl, rfl, _, rfl, rfl, rfl⟩

/-- Claim C4 (amended): with the deck and both notetypes resolvable,
`create_card` fails with the duplicate-note error exactly when a note with
the checksum of the new front already exists under the target notetype, in
which case the database is left unchanged; and, provided neither field
contains the `U+001F` separator, the same front can be created under two
different notetypes, both calls succeeding. (Without the separator proviso
the success half fails: see the counterexample, where the final strict
unpack `front, back = note.flds.split(chr(31))` raises a `ValueError`.) -/
theorem claim_C4_duplicate_detection (db : Db)
    (dn tnA tnB back tg : String) (off : Int) (gA gB : String)
    (now nowB : Int) (deck : Deck) (ntA ntB : Notetype)
    (hdeck : db.decks.find? (fun d => d.name == dn) = some deck)
    (hntA : db.notetypes.find? (fun n => n.name == tnA) = some ntA)
    (hntB : db.notetypes.find? (fun n => n.name == tnB) = some ntB)
    (hAB : ntA.id ≠ ntB.id)
    (htA : db.templates.filter (fun t => t.ntid == ntA.id) ≠ [])
    (htB : db.templates.filter (fun t => t.ntid == ntB.id) ≠ [])
    (hback : '\x1f' ∉ back.data) :
    (∀ front2 : String,
      ((create_card db dn tnA front2 back tg off gA now).2
          = Except.error dupNoteMsg
        ↔ ∃ n ∈ db.notes,
            n.csum = anki_field_checksum front2 ∧ n.mid = ntA.id) ∧
      ((∃ n ∈ db.notes,
            n.csum = anki_field_checksum front2 ∧ n.mid = ntA.id) →
        (create_card db dn tnA front2 back tg off gA now).1 = db)) ∧
    (∀ front : String, '\x1f' ∉ front.data →
      (∀ n ∈ db.notes,
        ¬(n.csum = anki_field_checksum front ∧ n.mid = ntA.id)) →
      (∀ n ∈ db.notes,
        ¬(n.csum = anki_field_checksum front ∧ n.mid = ntB.id)) →
      (∃ o1, (create_card db dn tnA front back tg off gA now).2
          = Except.ok o1) ∧
      (∃ o2, (create_card (create_card db dn tnA front back tg off gA now).1
          dn tnB front back tg off gB nowB).2 = Except.ok o2)) := by
  constructor
  · intro front2
    unfold create_card
    rw [hdeck]
    dsimp only
    rw [hntA]
    dsimp only
    rcases hfind : db.notes.find? (fun n =>
        n.csum == anki_field_checksum front2 && n.mid == ntA.id) with _ | n0
    · rw [hfind]
      have hnone : ∀ n ∈ db.notes,
          ¬(n.csum = anki_field_checksum front2 ∧ n.mid = ntA.id) := by
        intro n hn hp
        have := List.find?_eq_none.mp hfind n hn
        simp only [Bool.and_eq_true, beq_iff_eq] at this
        exact this ⟨hp.1, hp.2⟩
      dsimp only
      constructor
      · constructor
        · intro herr
          exfalso
          revert herr
          split
          · intro herr
            injection herr with hmsg
            exact absurd hmsg (by decide)
          · split
            · intro herr
              cases herr
            · intro herr
              injection herr with hmsg
              exact absurd hmsg (by decide)
        · rintro ⟨n, hn, hp⟩
          exact absurd hp (hnone n hn)
      · rintro ⟨n, hn, hp⟩
        exact absurd hp (hnone n hn)
    · rw [hfind]
      dsimp only
      constructor
      · constructor
        · intro _
          refine ⟨n0, List.mem_of_find?_eq_some hfind, ?_⟩
          have := List.find?_some hfind
          simp only [Bool.and_eq_true, beq_iff_eq] at this
          exact ⟨this.1, this.2⟩
        · intro _
          rfl
      · intro _
        rfl
  · intro front hfront hnoA hnoB
    have hdupA : db.notes.find? (fun n =>
        n.csum == anki_field_checksum front && n.mid == ntA.id) = none := by
      rw [List.find?_eq_none]
      intro n hn
      simp only [Bool.and_eq_true, beq_iff_eq, not_and]
      intro h1 h2
      exact hnoA n hn ⟨h1, h2⟩
    obtain ⟨⟨o1, ho1⟩, hdecks, hnts, htmps, note, hnotes, hcs, hmid⟩ :=
      create_card_success db dn tnA front back tg off gA now deck ntA
        hdeck hntA hdupA htA hfront hback
    refine ⟨⟨o1, ho1⟩, ?_⟩
    have hdeck1 : (create_card db dn tnA front back tg off gA now).1.decks.find?
        (fun d => d.name == dn) = some deck := by rw [hdecks]; exact hdeck
    have hntB1 : (create_card db dn tnA front back tg off gA now).1.notetypes.find?
        (fun n => n.name == tnB) = some ntB := by rw [hnts]; exact hntB
    have hdupB1 : (create_card db dn tnA front back tg off gA now).1.notes.find?
        (fun n => n.csum == anki_field_checksum front && n.mid == ntB.id)
          = none := by
      rw [hnotes, List.find?_eq_none]
      intro n hn
      simp only [Bool.and_eq_true, beq_iff_eq, not_and]
      rcases List.mem_append.mp hn with h1 | h2
      · intro hc hm
        exact hnoB n h1 ⟨hc, hm⟩
      · intro _ hm
        rw [List.mem_singleton.mp h2] at hm
        exact absurd (hmid ▸ hm) hAB
    have htB1 : (create_card db dn tnA front back tg off gA now).1.templates.filter
        (fun t => t.ntid == ntB.id) ≠ [] := by rw [htmps]; exact htB
    obtain ⟨⟨o2, ho2⟩, _⟩ :=
      create_card_success _ dn tnB front back tg off gB nowB deck ntB
        hdeck1 hntB1 hdupB1 htB1 hfront hback
    exact ⟨o2, ho2⟩

/-- Witness deck for claim C4. -/
def c4Deck : Deck :=
  { id := 1, name := "D", mtime_secs := 0, usn := 0, collection_id := 1,
    config_id := 1 }

/-- Witness note for claim C4: an existing note under notetype 1 whose
checksum is that of the front text "P". -/
def c4DupNote : Note :=
  { id := 1, guid := "g0", mid := 1, mod := 0, usn := 0, tags := "",
    flds := "P\x1fx", sfld := "P", csum := anki_field_checksum "P",
    flags := 0, data := "" }

/-- Witness database for claim C4: one deck, two notetypes with one
template each, and one existing note under notetype 1. -/
def c4Db : Db :=
  { decks := [c4Deck],
    notetypes := [{ id := 1, name := "A" }, { id := 2, name := "B" }],
    templates := [{ ntid := 1, ord := 0 }, { ntid := 2, ord := 0 }],
    notes := [c4DupNote],
    cards := [],
    revlogs := [] }

/-- Counterexample to claim C4 as stated: a front containing the `U+001F`
field separator has no duplicate under the notetype, yet `create_card`
fails with the strict-unpack `ValueError` of
`front, back = note.flds.split(chr(31))` rather than succeeding. -/
theorem claim_C4_counterexample :
    (∀ n ∈ c4Db.notes,
      ¬(n.csum = anki_field_checksum "a\x1fb" ∧ n.mid = (1 : Int))) ∧
    (create_card c4Db "D" "A" "a\x1fb" "x" "" 0 "gx" 100).2
      = Except.error "too many values to unpack (expected 2)" := by decide

/-- Witness for claim C4: creating "P" under notetype A hits the duplicate
error and leaves the state unchanged; creating "Q" under A and then under B
both succeed. -/
theorem claim_C4_duplicate_detection_witness :
    (create_card c4Db "D" "A" "P" "b" "" 0 "gx" 100).2
        = Except.error dupNoteMsg ∧
    (create_card c4Db "D" "A" "P" "b" "" 0 "gx" 100).1 = c4Db ∧
    (create_card c4Db "D" "A" "Q" "b" "" 0 "gx" 100).2.toOption.isSome
        = true ∧
    (create_card (create_card c4Db "D" "A" "Q" "b" "" 0 "gx" 100).1
        "D" "B" "Q" "b" "" 0 "g2" 200).2.toOption.isSome = true := by
  obtain ⟨hchar, hsucc⟩ := claim_C4_duplicate_detection c4Db "D" "A" "B" "b" ""
    0 "gx" "g2" 100 200 c4Deck { id := 1, name := "A" } { id := 2, name := "B" }
    (by decide) (by decide) (by decide) (by decide) (by decide) (by decide)
    (by decide)
  obtain ⟨h1, h2⟩ := hchar "P"
  obtain ⟨⟨o1, ho1⟩, ⟨o2, ho2⟩⟩ := hsucc "Q" (by decide) (by decide) (by decide)
  refine ⟨h1.mpr (by decide), h2 (by decide), ?_, ?_⟩
  · rw [ho1]; rfl
  · rw [ho2]; rfl

/-! ## Claim C10: the frame of `update_card` -/

/-- The card fields `update_card` must not touch (identity, placement,
template ordinal and entire scheduling state). -/
def cardFrame (c : Card) :
    Int × Int × Int × Int × Int × Int × Int × Int × Int × Int × Int :=
  (c.id, c.did, c.nid, c.ord, c.type_id, c.queue_id, c.due, c.ivl,
   c.factor, c.reps, c.lapses)

/-- The note fields `update_card` must not touch. -/
def noteFrame (n : Note) : Int × String × Int :=
  (n.id, n.guid, n.mid)

/-- Claim C10: a successful `update_card` changes only the note's fields,
sort field, checksum, tags and modification time and the card's
modification time: every card's id, deck, note reference, ordinal and
scheduling state (type, queue, due, interval, factor, reps, lapses), every
note's id, guid and notetype, and the deck table are unchanged. -/
theorem claim_C10_update_frame (db : Db) (cid : Int)
    (fr bk tg : Option String) (off now : Int) (db' : Db)
    (out : FlashcardUpdateOutput)
    (huc : (db.cards.map Card.id).Nodup)
    (hun : (db.notes.map Note.id).Nodup)
    (h : update_card db cid fr bk tg off now = (db', Except.ok out)) :
    db'.cards.map cardFrame = db.cards.map cardFrame ∧
    db'.notes.map noteFrame = db.notes.map noteFrame ∧
    db'.decks = db.decks := by
  unfold update_card at h
  split_ifs at h
  · simp at h
  · split at h
    · simp at h
    · rename_i card hcard
      split at h
      · rename_i note deck hnote hdeck
        injection h with hdb hok
        subst hdb
        refine ⟨?_, ?_, rfl⟩
        · rw [List.map_map]
          apply List.map_congr_left
          intro c hcmem
          by_cases hc : c.id = card.id
          · have hceq : c = card := List.inj_on_of_nodup_map huc hcmem
              (List.mem_of_find?_eq_some hcard) hc
            subst hceq
            simp only [Function.comp_apply, if_pos hc]
            rfl
          · simp only [Function.comp_apply, if_neg hc]
        · rw [List.map_map]
          apply List.map_congr_left
          intro n hnmem
          by_cases hn : n.id = note.id
          · have hneq : n = note := List.inj_on_of_nodup_map hun hnmem
              (List.mem_of_find?_eq_some hnote) hn
            subst hneq
            simp only [Function.comp_apply, if_pos hn]
            rfl
          · simp only [Function.comp_apply, if_neg hn]
      · simp at h

/-- Witness for claim C10: updating the front of the card in `c5Db` leaves
every frame field unchanged. -/
theorem claim_C10_update_frame_witness :
    (update_card c5Db 1 (some "upd") none none 60 1000).1.cards.map cardFrame
        = c5Db.cards.map cardFrame ∧
    (update_card c5Db 1 (some "upd") none none 60 1000).1.notes.map noteFrame
        = c5Db.notes.map noteFrame ∧
    (update_card c5Db 1 (some "upd") none none 60 1000).1.decks
        = c5Db.decks :=
  claim_C10_update_frame c5Db 1 (some "upd") none none 60 1000
    (update_card c5Db 1 (some "upd") none none 60 1000).1 c5Out2
    (by decide) (by decide) (by decide)

/-! ## Claim C9: a deck-column header declaring column 0 -/

/-- `dropWhile` is a no-op when the head does not satisfy the predicate. -/
theorem dropWhile_eq_self_of_head (p : Char → Bool) (l : List Char)
    (h : ∀ c ∈ l.head?, p c = false) : l.dropWhile p = l := by
  cases l with
  | nil => rfl
  | cons x xs =>
    rw [List.dropWhile_cons, h x rfl]
    simp

/-- A non-empty `dropWhile` keeps the last element. -/
theorem getLast?_dropWhile (p : Char → Bool) (X : List Char)
    (h : X.dropWhile p ≠ []) : (X.dropWhile p).getLast? = X.getLast? := by
  induction X with
  | nil => simp at h
  | cons x xs ih =>
    rw [List.dropWhile_cons]
    by_cases hp : p x = true
    · rw [if_pos hp]
      rw [List.dropWhile_cons, if_pos hp] at h
      rw [ih h]
      cases xs with
      | nil => simp at h
      | cons y ys => simp [List.getLast?_cons_cons]
    · rw [if_neg hp]

/-- Python's `str.strip` is idempotent. -/
theorem pyStrip_idem (l : List Char) : pyStrip (pyStrip l) = pyStrip l := by
  unfold pyStrip
  rcases hY : (l.dropWhile pyWs).reverse.dropWhile pyWs with _ | ⟨y, ys⟩
  · simp
  · have h1 : pyWs y = false := by
      have h := List.head?_dropWhile_not pyWs (l.dropWhile pyWs).reverse
      rw [hY] at h
      simpa using h
    have h2 : (y :: ys).getLast? = (l.dropWhile pyWs).reverse.getLast? := by
      rw [← hY]
      exact getLast?_dropWhile pyWs _ (by rw [hY]; simp)
    have h3 : (l.dropWhile pyWs).reverse.getLast? = (l.dropWhile pyWs).head? :=
      List.getLast?_reverse _
    have h4 : ∀ c ∈ (l.dropWhile pyWs).head?, pyWs c = false := by
      intro c hc
      have h := List.head?_dropWhile_not pyWs l
      rcases hh : (l.dropWhile pyWs).head? with _ | d
      · rw [hh] at hc; cases hc
      · rw [hh] at h hc
        cases hc
        simpa using h
    have hstep1 : (y :: ys).reverse.dropWhile pyWs = (y :: ys).reverse := by
      apply dropWhile_eq_self_of_head
      intro c hc
      rw [List.head?_reverse, h2, h3] at hc
      exact h4 c hc
    rw [hstep1, List.reverse_reverse, List.dropWhile_cons, h1]
    simp

/-- `splitCh` never produces an empty list of pieces. -/
theorem splitCh_ne_nil (sep : Char) (l : List Char) : splitCh sep l ≠ [] := by
  cases l with
  | nil => simp [splitCh]
  | cons c cs =>
    rw [splitCh]
    split_ifs
    · simp
    · rcases h : splitCh sep cs with _ | ⟨a, b⟩ <;> simp

/-- Python index `-1` on a non-empty list is its last element. -/
theorem pyGetIndex_neg_one (l : List (List Char)) (h : l ≠ []) :
    pyGetIndex l (-1) = l.getLast? := by
  unfold pyGetIndex
  have hl : 0 < l.length := List.length_pos.mpr h
  rw [if_neg (by omega), if_pos (by omega)]
  have h2 : ((l.length : Int) + -1).toNat = l.length - 1 := by omega
  rw [h2, List.getLast?_eq_getElem? l]

/-- Counterexample to claim C9 as stated: the line `"a\tb\t"` has three
fields (at least two), parses to a card, and yet that card's deck name is
absent, because the blank final field is turned into `None`. -/
theorem claim_C9_counterexample :
    2 ≤ (splitCh '\t' "a\tb\t".data).length ∧
    (TxtParser.parse_line "a\tb\t".data '\t' false (some 0) none).map
      (fun c => c.deck_name) = some none := by decide

/-- Claim C9 (amended): the header line `#deck column:0` is accepted by the
deck-column pattern with value 0; converted to the 0-based index `-1`, it
resolves, on every data line with at least two fields that parses to a
card, to the line's final field: the card's deck name is that field
stripped, or absent when the field is blank. -/
theorem claim_C9_deck_column_zero (line : List Char) (sep : Char)
    (html : Bool) (tagsCol : Option Nat) (fc : ImpFlashcard)
    (hlen : 2 ≤ (splitCh sep line).length)
    (hp : TxtParser.parse_line line sep html (some 0) tagsCol = some fc) :
    parse_deck_column "#deck column:0" = some 0 ∧
    fc.deck_name = ((splitCh sep line).getLast?).bind
      (fun lst => if pyStrip lst = [] then none else some (pyStrip lst)) := by
  refine ⟨by decide, ?_⟩
  unfold TxtParser.parse_line at hp
  rw [if_neg (by omega)] at hp
  dsimp only at hp
  rw [show ((0 : Nat) : Int) - 1 = -1 by norm_num] at hp
  have hne : splitCh sep line ≠ [] := splitCh_ne_nil sep line
  rw [if_pos (show (-1 : Int) < ((splitCh sep line).length : Int) by omega)]
    at hp
  rw [pyGetIndex_neg_one _ hne] at hp
  rcases hlast : (splitCh sep line).getLast? with _ | lst
  · cases hc : splitCh sep line with
    | nil => exact absurd hc hne
    | cons a b => rw [hc] at hlast; simp at hlast
  · rw [hlast] at hp
    dsimp only at hp
    by_cases hv1 :
        (!validate_content_ok (pyStrip ((splitCh sep line).getD 0 []))) = true
    · rw [if_pos hv1] at hp; cases hp
    · rw [if_neg hv1] at hp
      by_cases hv2 :
          (!validate_content_ok (pyStrip ((splitCh sep line).getD 1 []))) = true
      · rw [if_pos hv2] at hp; cases hp
      · rw [if_neg hv2] at hp
        injection hp with hfc
        subst hfc
        rw [mkFlashcard]
        dsimp only
        by_cases hblank : pyStrip lst = []
        · simp [hblank]
        · simp [hblank, pyStrip_idem]

/-- The card the witness line for claim C9 parses to. -/
def c9Fc : ImpFlashcard :=
  { front := ['x'], back := ['y'],
    deck_name := some ['M', 'y', 'D', 'e', 'c', 'k'], tags := [],
    card_type := ImpCardType.BASIC, html_enabled := false }

/-- Witness for the amended claim C9: on `"x\ty\tMyDeck"` with the deck
column declared as 0, the parsed card's deck is the final field. -/
theorem claim_C9_deck_column_zero_witness :
    parse_deck_column "#deck column:0" = some 0 ∧
    c9Fc.deck_name = ((splitCh '\t' "x\ty\tMyDeck".data).getLast?).bind
      (fun lst => if pyStrip lst = [] then none else some (pyStrip lst)) :=
  claim_C9_deck_column_zero "x\ty\tMyDeck".data '\t' false none c9Fc
    (by decide) (by decide)


/-! ## Claim C8: idempotence of the two HTML strippers

The claim fails as stated (entity decoding can synthesize new tags); the
development below proves the counterexample and the amended claim:
idempotence for every input without `&`. -/

/-- Counterexample to claim C8 as stated: on `"&lt;b&gt;hi&lt;/b&gt;"` the
first pass decodes the entities into `"<b>hi</b>"`, and the second pass
strips those tags, for both implementations. -/
theorem claim_C8_counterexample :
    CardValidator.strip_html
        (CardValidator.strip_html "&lt;b&gt;hi&lt;/b&gt;".data)
      ≠ CardValidator.strip_html "&lt;b&gt;hi&lt;/b&gt;".data ∧
    HtmlHandler.strip_html
        (HtmlHandler.strip_html "&lt;b&gt;hi&lt;/b&gt;".data)
      ≠ HtmlHandler.strip_html "&lt;b&gt;hi&lt;/b&gt;".data := by decide

/-- Characters of the tag stripper's output come from its input. -/
theorem mem_stripTagsAux {x : Char} :
    ∀ (st : Bool) (l : List Char), x ∈ stripTagsAux st l → x ∈ l := by
  intro st l
  induction l generalizing st with
  | nil => intro h; cases st <;> simp [stripTagsAux] at h
  | cons c cs ih =>
    intro h
    cases st with
    | false =>
      rw [stripTagsAux] at h
      split_ifs at h with hb
      · exact List.mem_cons_of_mem c (ih true h)
      · rcases List.mem_cons.mp h with h1 | h2
        · exact h1 ▸ List.mem_cons_self c cs
        · exact List.mem_cons_of_mem c (ih false h2)
    | true =>
      rw [stripTagsAux] at h
      split_ifs at h with hb
      · exact List.mem_cons_of_mem c (ih false h)
      · exact List.mem_cons_of_mem c (ih true h)

/-- Membership in a `startsWith` pattern transfers to the list. -/
theorem mem_of_startsWith {x : Char} :
    ∀ (p l : List Char), startsWith p l = true → x ∈ p → x ∈ l := by
  intro p
  induction p with
  | nil => intro l _ hx; cases hx
  | cons a as ih =>
    intro l hs hx
    cases l with
    | nil => simp [startsWith] at hs
    | cons c cs =>
      rw [startsWith, Bool.and_eq_true, beq_iff_eq] at hs
      rcases List.mem_cons.mp hx with h1 | h2
      · exact (h1.trans hs.1) ▸ List.mem_cons_self c cs
      · exact List.mem_cons_of_mem c (ih cs hs.2 h2)

/-- When is a `<` not the start of a tag match: nothing follows, or `>`
follows immediately, or no `>` follows at all. -/
theorem tagStartAhead_eq_false_iff (l : List Char) :
    tagStartAhead l = false ↔ (∀ y ∈ l.head?, y = '>') ∨ '>' ∉ l := by
  cases l with
  | nil => simp [tagStartAhead]
  | cons y ys =>
    rw [tagStartAhead]
    simp only [List.head?_cons, Option.mem_some_iff]
    constructor
    · intro h
      rcases Bool.and_eq_false_iff.mp h with h1 | h2
      · left
        intro z hz
        rw [← hz]
        by_contra hne
        rw [decide_eq_false_iff_not] at h1
        exact h1 hne
      · right
        simpa using h2
    · intro h
      rcases h with h1 | h2
      · have : y = '>' := h1 y rfl
        rw [Bool.and_eq_false_iff]
        left
        simp [this]
      · rw [Bool.and_eq_false_iff]
        right
        simpa using h2

/-- Existence characterization of a `<[^>]+>` match. -/
theorem hasTag_iff_exists (l : List Char) :
    hasTag l = true ↔
      ∃ a d b, l = a ++ '<' :: d :: b ∧ d ≠ '>' ∧ '>' ∈ d :: b := by
  induction l with
  | nil =>
    simp only [hasTag]
    constructor
    · intro h; cases h
    · rintro ⟨a, d, b, heq, -, -⟩
      exact absurd heq (by simp)
  | cons c cs ih =>
    rw [hasTag, Bool.or_eq_true]
    constructor
    · rintro (h | h)
      · rw [Bool.and_eq_true, decide_eq_true_eq] at h
        obtain ⟨hc, ht⟩ := h
        cases cs with
        | nil => simp [tagStartAhead] at ht
        | cons d ds =>
          rw [tagStartAhead, Bool.and_eq_true, decide_eq_true_eq] at ht
          refine ⟨[], d, ds, by rw [hc]; rfl, ht.1, ?_⟩
          simpa using ht.2
      · obtain ⟨a, d, b, heq, hd, hm⟩ := ih.mp h
        exact ⟨c :: a, d, b, by rw [heq]; rfl, hd, hm⟩
    · rintro ⟨a, d, b, heq, hd, hm⟩
      cases a with
      | nil =>
        simp only [List.nil_append, List.cons.injEq] at heq
        obtain ⟨hc, hcs⟩ := heq
        left
        rw [Bool.and_eq_true, decide_eq_true_eq]
        refine ⟨hc, ?_⟩
        rw [hcs, tagStartAhead, Bool.and_eq_true, decide_eq_true_eq]
        exact ⟨hd, by simpa using hm⟩
      | cons a0 as =>
        simp only [List.cons_append, List.cons.injEq] at heq
        right
        exact ih.mpr ⟨as, d, b, heq.2, hd, hm⟩

/-- A tag inside a middle section is a tag of the whole list. -/
theorem hasTag_of_middle (a m b : List Char) (h : hasTag m = true) :
    hasTag (a ++ m ++ b) = true := by
  obtain ⟨x, d, y, heq, hd, hm⟩ := (hasTag_iff_exists m).mp h
  refine (hasTag_iff_exists _).mpr ⟨a ++ x, d, y ++ b, ?_, hd, ?_⟩
  · rw [heq]; simp
  · rcases List.mem_cons.mp hm with h1 | h2
    · exact h1 ▸ List.mem_cons_self _ _
    · exact List.mem_cons_of_mem _ (List.mem_append_left _ h2)

/-- `pyStrip l` is a middle section of `l`. -/
theorem pyStrip_middle (l : List Char) : ∃ a b, l = a ++ pyStrip l ++ b := by
  refine ⟨l.takeWhile pyWs,
    ((l.dropWhile pyWs).reverse.takeWhile pyWs).reverse, ?_⟩
  unfold pyStrip
  conv_lhs => rw [← List.takeWhile_append_dropWhile pyWs l]
  rw [List.append_assoc]
  congr 1
  conv_lhs => rw [← List.reverse_reverse (l.dropWhile pyWs),
    ← List.takeWhile_append_dropWhile pyWs (l.dropWhile pyWs).reverse]
  rw [List.reverse_append]

/-- Stripping edge whitespace cannot create a tag. -/
theorem hasTag_pyStrip (l : List Char) (h : hasTag l = false) :
    hasTag (pyStrip l) = false := by
  by_contra hc
  obtain ⟨a, b, heq⟩ := pyStrip_middle l
  rw [heq, hasTag_of_middle a _ b (Bool.not_eq_false _ ▸ hc)] at h
  cases h

/-- Membership in `pyStrip l` transfers to `l`. -/
theorem mem_pyStrip {x : Char} (l : List Char) (h : x ∈ pyStrip l) : x ∈ l := by
  obtain ⟨a, b, heq⟩ := pyStrip_middle l
  rw [heq]
  exact List.mem_append_left _ (List.mem_append_right _ h)

/-- The tag stripper's output contains no tag. -/
theorem hasTag_stripTagsAux : ∀ (st : Bool) (l : List Char),
    hasTag (stripTagsAux st l) = false := by
  intro st l
  induction l generalizing st with
  | nil => cases st <;> rfl
  | cons c cs ih =>
    cases st with
    | true =>
      rw [stripTagsAux]
      split_ifs with hb
      · exact ih false
      · exact ih true
    | false =>
      rw [stripTagsAux]
      split_ifs with hb
      · exact ih true
      · rw [hasTag, Bool.or_eq_false_iff]
        refine ⟨?_, ih false⟩
        rw [Bool.and_eq_false_iff]
        by_cases hc : c = '<'
        · right
          rw [Bool.and_eq_true, decide_eq_true_eq] at hb
          push_neg at hb
          have hcs : tagStartAhead cs = false :=
            Bool.not_eq_true _ ▸ (hb hc)
          rw [tagStartAhead_eq_false_iff] at hcs ⊢
          rcases hcs with h1 | h2
          · cases cs with
            | nil => left; intro y hy; cases hy
            | cons e es =>
              have he : e = '>' := h1 e rfl
              subst he
              left
              rw [stripTagsAux, if_neg (by simp)]
              intro y hy
              have := Option.mem_some_iff.mp hy
              rw [← this]
          · right
            intro hmem
            exact h2 (mem_stripTagsAux false cs hmem)
        · left
          simp [hc]

/-- On a tag-free list, the tag stripper is the identity. -/
theorem stripTags_eq_self (l : List Char) (h : hasTag l = false) :
    stripTagsAux false l = l := by
  induction l with
  | nil => rfl
  | cons c cs ih =>
    rw [hasTag, Bool.or_eq_false_iff] at h
    rw [stripTagsAux, if_neg (by rw [h.1]; simp), ih h.2]

/-- `str.replace` is the identity when the pattern does not occur. -/
theorem replaceAux_eq_self (p rep : List Char) :
    ∀ l : List Char, containsSub p l = false → replaceAux p rep 0 l = l := by
  intro l
  induction l with
  | nil => intro _; rfl
  | cons c cs ih =>
    intro h
    rw [containsSub, Bool.or_eq_false_iff] at h
    rw [replaceAux, if_neg (by rw [h.1]; simp), ih h.2]

/-- A pattern whose head is absent from the list never occurs in it. -/
theorem containsSub_eq_false_of_head_not_mem (p0 : Char) (ps : List Char) :
    ∀ l : List Char, p0 ∉ l → containsSub (p0 :: ps) l = false := by
  intro l
  induction l with
  | nil => intro _; rfl
  | cons c cs ih =>
    intro h
    rw [containsSub, Bool.or_eq_false_iff]
    constructor
    · rw [startsWith, Bool.and_eq_false_iff]
      left
      rw [beq_eq_false_iff_ne]
      intro he
      exact h (he ▸ List.mem_cons_self c cs)
    · exact ih (fun hm => h (List.mem_cons_of_mem c hm))

/-- An occurrence of a pattern `<d…` with a later `>` is a tag. -/
theorem hasTag_of_containsSub (d : Char) (rest : List Char)
    (hd : d ≠ '>') (hrest : '>' ∈ rest) :
    ∀ l : List Char, containsSub ('<' :: d :: rest) l = true →
      hasTag l = true := by
  intro l
  induction l with
  | nil => intro h; cases h
  | cons c cs ih =>
    intro h
    rw [containsSub, Bool.or_eq_true] at h
    rcases h with h | h
    · rw [startsWith, Bool.and_eq_true, beq_iff_eq] at h
      obtain ⟨hc, hs⟩ := h
      cases cs with
      | nil => simp [startsWith] at hs
      | cons e es =>
        rw [startsWith, Bool.and_eq_true, beq_iff_eq] at hs
        obtain ⟨hde, hs2⟩ := hs
        rw [hasTag, Bool.or_eq_true]
        left
        rw [Bool.and_eq_true, decide_eq_true_eq]
        refine ⟨hc.symm, ?_⟩
        rw [tagStartAhead, Bool.and_eq_true, decide_eq_true_eq]
        refine ⟨hde ▸ hd, ?_⟩
        have : '>' ∈ e :: es := List.mem_cons_of_mem e
          (mem_of_startsWith rest es hs2 hrest)
        simpa using this
    · rw [hasTag, Bool.or_eq_true]
      right
      exact ih h

/-- With no `&` in the input, `CardValidator.strip_html` is exactly the tag
stripper: the five entity substitutions and the `<br>` substitutions do not
fire (the output of tag removal is tag-free and still `&`-free). -/
theorem cardValidator_strip_eq_stripTags (l : List Char) (h : '&' ∉ l) :
    CardValidator.strip_html l = stripTags l := by
  unfold CardValidator.strip_html pyReplace
  dsimp only
  have hamp : '&' ∉ stripTags l := fun hm => h (mem_stripTagsAux false l hm)
  have htag : hasTag (stripTags l) = false := hasTag_stripTagsAux false l
  have hamp2 : ∀ p : List Char, p.head? = some '&' →
      containsSub p (stripTags l) = false := by
    intro p hp
    cases p with
    | nil => cases hp
    | cons p0 ps =>
      rw [List.head?_cons, Option.some.injEq] at hp
      rw [hp]
      exact containsSub_eq_false_of_head_not_mem '&' ps _ hamp
  have hbr : ∀ (p : List Char) (d : Char) (rest : List Char),
      p = '<' :: d :: rest → d ≠ '>' → '>' ∈ rest →
      containsSub p (stripTags l) = false := by
    intro p d rest hp hd hrest
    subst hp
    by_contra hc
    rw [hasTag_of_containsSub d rest hd hrest _
      (Bool.not_eq_false _ ▸ hc)] at htag
    cases htag
  rw [replaceAux_eq_self _ _ _ (hamp2 "&nbsp;".data (by decide))]
  rw [replaceAux_eq_self _ _ _ (hamp2 "&amp;".data (by decide))]
  rw [replaceAux_eq_self _ _ _ (hamp2 "&lt;".data (by decide))]
  rw [replaceAux_eq_self _ _ _ (hamp2 "&gt;".data (by decide))]
  rw [replaceAux_eq_self _ _ _ (hamp2 "&quot;".data (by decide))]
  rw [replaceAux_eq_self _ _ _
    (hbr "<br>".data 'b' "r>".data (by decide) (by decide) (by decide))]
  rw [replaceAux_eq_self _ _ _
    (hbr "<br/>".data 'b' "r/>".data (by decide) (by decide) (by decide))]
  rw [replaceAux_eq_self _ _ _
    (hbr "<br />".data 'b' "r />".data (by decide) (by decide) (by decide))]

/-- The validator's `strip_html` is idempotent on `&`-free input. -/
theorem cardValidator_strip_idem (l : List Char) (h : '&' ∉ l) :
    CardValidator.strip_html (CardValidator.strip_html l)
      = CardValidator.strip_html l := by
  rw [cardValidator_strip_eq_stripTags l h]
  rw [cardValidator_strip_eq_stripTags (stripTags l)
    (fun hm => h (mem_stripTagsAux false l hm))]
  exact stripTags_eq_self _ (hasTag_stripTagsAux false l)

/-- `Char.toLower` can only produce a character below code point 97 by
leaving it unchanged. -/
theorem toLower_eq_of_lt (c t : Char) (ht : t.toNat < 97)
    (h : c.toLower = t) : c = t := by
  unfold Char.toLower at h
  dsimp only at h
  split_ifs at h with hr
  · exfalso
    obtain ⟨h1, h2⟩ := hr
    set m := c.toNat with hm
    interval_cases m <;> (rw [← h] at ht; exact absurd ht (by decide))
  · exact h

/-- Characters of `subBrAux`'s output come from its input, or are the
inserted newline. -/
theorem mem_subBrAux {x : Char} :
    ∀ (l : List Char) (k : Nat), x ∈ subBrAux k l → x ∈ l ∨ x = '\n' := by
  intro l
  induction l with
  | nil => intro k h; cases k <;> simp [subBrAux] at h
  | cons c cs ih =>
    intro k h
    cases k with
    | succ k =>
      rw [subBrAux] at h
      rcases ih k h with h1 | h2
      · exact Or.inl (List.mem_cons_of_mem c h1)
      · exact Or.inr h2
    | zero =>
      rw [subBrAux] at h
      split_ifs at h with hc
      · rcases htry : tryBr cs with _ | n <;> rw [htry] at h
        · rcases List.mem_cons.mp h with h1 | h2
          · exact Or.inl (h1 ▸ List.mem_cons_self c cs)
          · rcases ih 0 h2 with h3 | h4
            · exact Or.inl (List.mem_cons_of_mem c h3)
            · exact Or.inr h4
        · rcases List.mem_cons.mp h with h1 | h2
          · exact Or.inr h1
          · rcases ih n h2 with h3 | h4
            · exact Or.inl (List.mem_cons_of_mem c h3)
            · exact Or.inr h4
      · rcases List.mem_cons.mp h with h1 | h2
        · exact Or.inl (h1 ▸ List.mem_cons_self c cs)
        · rcases ih 0 h2 with h3 | h4
          · exact Or.inl (List.mem_cons_of_mem c h3)
          · exact Or.inr h4

/-- Characters of `subLitCIAux`'s output come from its input, or are the
replacement character. -/
theorem mem_subLitCIAux {x : Char} (lit : List Char) (rep : Char) :
    ∀ (l : List Char) (k : Nat),
      x ∈ subLitCIAux lit rep k l → x ∈ l ∨ x = rep := by
  intro l
  induction l with
  | nil => intro k h; cases k <;> simp [subLitCIAux] at h
  | cons c cs ih =>
    intro k h
    cases k with
    | succ k =>
      rw [subLitCIAux] at h
      rcases ih k h with h1 | h2
      · exact Or.inl (List.mem_cons_of_mem c h1)
      · exact Or.inr h2
    | zero =>
      rw [subLitCIAux] at h
      split_ifs at h with hc
      · rcases List.mem_cons.mp h with h1 | h2
        · exact Or.inr h1
        · rcases ih _ h2 with h3 | h4
          · exact Or.inl (List.mem_cons_of_mem c h3)
          · exact Or.inr h4
      · rcases List.mem_cons.mp h with h1 | h2
        · exact Or.inl (h1 ▸ List.mem_cons_self c cs)
        · rcases ih 0 h2 with h3 | h4
          · exact Or.inl (List.mem_cons_of_mem c h3)
          · exact Or.inr h4

/-- Characters of `collapseNLAux`'s output come from its input, or are the
inserted newlines. -/
theorem mem_collapseNLAux {x : Char} :
    ∀ (l : List Char) (st : Bool),
      x ∈ collapseNLAux st l → x ∈ l ∨ x = '\n' := by
  intro l
  induction l with
  | nil => intro st h; cases st <;> simp [collapseNLAux] at h
  | cons c cs ih =>
    intro st h
    cases st with
    | false =>
      rw [collapseNLAux] at h
      split_ifs at h with hc
      · rcases List.mem_cons.mp h with h1 | h2
        · exact Or.inr h1
        · rcases List.mem_cons.mp h2 with h3 | h4
          · exact Or.inr h3
          · rcases ih true h4 with h5 | h6
            · exact Or.inl (List.mem_cons_of_mem c h5)
            · exact Or.inr h6
      · rcases List.mem_cons.mp h with h1 | h2
        · exact Or.inl (h1 ▸ List.mem_cons_self c cs)
        · rcases ih false h2 with h3 | h4
          · exact Or.inl (List.mem_cons_of_mem c h3)
          · exact Or.inr h4
    | true =>
      rw [collapseNLAux] at h
      split_ifs at h with hc hn
      · rcases ih true h with h1 | h2
        · exact Or.inl (List.mem_cons_of_mem c h1)
        · exact Or.inr h2
      · rcases ih false h with h1 | h2
        · exact Or.inl (List.mem_cons_of_mem c h1)
        · exact Or.inr h2
      · rcases ih true h with h1 | h2
        · exact Or.inl (List.mem_cons_of_mem c h1)
        · exact Or.inr h2

/-- Characters of `collapseSPAux`'s output come from its input, or are the
inserted space. -/
theorem mem_collapseSPAux {x : Char} :
    ∀ (l : List Char) (st : Bool),
      x ∈ collapseSPAux st l → x ∈ l ∨ x = ' ' := by
  intro l
  induction l with
  | nil => intro st h; simp [collapseSPAux] at h
  | cons c cs ih =>
    intro st h
    rw [collapseSPAux] at h
    split_ifs at h with hc hr
    · rcases ih true h with h1 | h2
      · exact Or.inl (List.mem_cons_of_mem c h1)
      · exact Or.inr h2
    · rcases List.mem_cons.mp h with h1 | h2
      · exact Or.inr h1
      · rcases ih true h2 with h3 | h4
        · exact Or.inl (List.mem_cons_of_mem c h3)
        · exact Or.inr h4
    · rcases List.mem_cons.mp h with h1 | h2
      · exact Or.inl (h1 ▸ List.mem_cons_self c cs)
      · rcases ih false h2 with h3 | h4
        · exact Or.inl (List.mem_cons_of_mem c h3)
        · exact Or.inr h4

/-- `html.unescape` is the identity on `&`-free input (as in CPython). -/
theorem pyUnescape_eq_self (l : List Char) (h : '&' ∉ l) :
    pyUnescapeAux 0 l = l := by
  induction l with
  | nil => rfl
  | cons c cs ih =>
    rw [pyUnescapeAux, if_neg (by
      intro hc
      exact h (hc ▸ List.mem_cons_self c cs))]
    rw [ih (fun hm => h (List.mem_cons_of_mem c hm))]

/-- A `<br…>` match implies a tag starts here. -/
theorem tagStartAhead_of_tryBr (cs : List Char) (n : Nat)
    (h : tryBr cs = some n) : tagStartAhead cs = true := by
  cases cs with
  | nil => cases h
  | cons b cs1 =>
    cases cs1 with
    | nil => cases h
    | cons r rest =>
      rw [tryBr] at h
      split_ifs at h with hbr
      · have hb : b ≠ '>' := by
          intro hbe
          subst hbe
          rw [show ('>' : Char).toLower = '>' from by decide] at hbr
          exact absurd hbr.1 (by decide)
        have hgt : '>' ∈ rest := by
          have hsub := (List.dropWhile_suffix (l := rest) pyWs).sublist
          rcases hdw : rest.dropWhile pyWs with _ | ⟨e, es⟩ <;>
            rw [hdw] at h hsub
          · cases h
          · split at h
            · rename_i tl heq
              rw [heq] at hsub
              exact hsub.mem (List.mem_cons_self _ _)
            · rename_i x tl heq
              rw [heq] at hsub
              exact hsub.mem (List.mem_cons_of_mem _ (List.mem_cons_self _ _))
            · simp at h
        have hmem : ('>' : Char) ∈ b :: r :: rest :=
          List.mem_cons_of_mem _ (List.mem_cons_of_mem _ hgt)
        rw [tagStartAhead]
        simp only [Bool.and_eq_true, decide_eq_true_eq]
        exact ⟨hb, by simpa using hmem⟩

/-- On a tag-free list, the `<br>` substitution is the identity. -/
theorem subBr_eq_self (l : List Char) (h : hasTag l = false) :
    subBrAux 0 l = l := by
  induction l with
  | nil => rfl
  | cons c cs ih =>
    rw [hasTag, Bool.or_eq_false_iff] at h
    rw [subBrAux]
    split_ifs with hc
    · rcases htry : tryBr cs with _ | n
      · rw [ih h.2]
      · exfalso
        have := tagStartAhead_of_tryBr cs n htry
        rw [Bool.and_eq_false_iff] at *
        rcases h.1 with h1 | h2
        · rw [decide_eq_false_iff_not] at h1
          exact h1 hc
        · rw [this] at h2
          cases h2
    · rw [ih h.2]

/-- Case-insensitive pattern membership: every pattern character is the
lowercase image of some list character. -/
theorem exists_mem_of_startsWithCI {x : Char} :
    ∀ (p l : List Char), startsWithCI p l = true → x ∈ p →
      ∃ y ∈ l, y.toLower = x := by
  intro p
  induction p with
  | nil => intro l _ hx; cases hx
  | cons a as ih =>
    intro l hs hx
    cases l with
    | nil => simp [startsWithCI] at hs
    | cons c cs =>
      rw [startsWithCI, Bool.and_eq_true, decide_eq_true_eq] at hs
      rcases List.mem_cons.mp hx with h1 | h2
      · exact ⟨c, List.mem_cons_self c cs, h1 ▸ hs.1⟩
      · obtain ⟨y, hy, hyl⟩ := ih cs hs.2 h2
        exact ⟨y, List.mem_cons_of_mem c hy, hyl⟩

/-- On a tag-free list, a case-insensitive closing-tag substitution (the
literal `'<' :: d :: rest` with `d` below code point 97, `d ≠ '>'` and a
closing `>` in `rest`) is the identity. -/
theorem subLitCI_eq_self (d : Char) (rest : List Char) (rep : Char)
    (hdne : d ≠ '>') (hrest : '>' ∈ rest) :
    ∀ l : List Char, hasTag l = false →
      subLitCIAux ('<' :: d :: rest) rep 0 l = l := by
  intro l
  induction l with
  | nil => intro _; rfl
  | cons c cs ih =>
    intro h
    rw [hasTag, Bool.or_eq_false_iff] at h
    rw [subLitCIAux]
    split_ifs with hc
    · exfalso
      rw [startsWithCI, Bool.and_eq_true, decide_eq_true_eq] at hc
      obtain ⟨hclt, hc2⟩ := hc
      have hceq : c = '<' := toLower_eq_of_lt c '<' (by decide) hclt
      cases cs with
      | nil => simp [startsWithCI] at hc2
      | cons e es =>
        rw [startsWithCI, Bool.and_eq_true, decide_eq_true_eq] at hc2
        obtain ⟨hed, hc3⟩ := hc2
        have hene : e ≠ '>' := by
          intro hee
          subst hee
          rw [show ('>' : Char).toLower = '>' from by decide] at hed
          exact hdne hed.symm
        have hgt : '>' ∈ es := by
          obtain ⟨y, hy, hyl⟩ := exists_mem_of_startsWithCI rest es hc3 hrest
          have : y = '>' := toLower_eq_of_lt y '>' (by decide) hyl
          exact this ▸ hy
        rcases Bool.and_eq_false_iff.mp h.1 with h1 | h2
        · rw [decide_eq_false_iff_not] at h1
          exact h1 hceq
        · rw [tagStartAhead, Bool.and_eq_false_iff] at h2
          rcases h2 with h3 | h4
          · rw [decide_eq_false_iff_not] at h3
            exact h3 hene
          · simp only [List.elem_eq_mem, decide_eq_false_iff_not] at h4
            exact h4 (List.mem_cons_of_mem e hgt)
    · rw [ih h.2]

/-- The blank-line collapser preserves the head character. -/
theorem collapseNL_false_head (e : Char) (es : List Char) :
    ∃ t, collapseNLAux false (e :: es) = e :: t := by
  rw [collapseNLAux]
  split_ifs with hc
  · rw [Bool.and_eq_true, decide_eq_true_eq] at hc
    exact ⟨'\n' :: collapseNLAux true es, by rw [hc.1]⟩
  · exact ⟨_, rfl⟩

/-- The blank-line collapser cannot create a tag. -/
theorem hasTag_collapseNLAux :
    ∀ (l : List Char) (st : Bool),
      hasTag (collapseNLAux st l) = true → hasTag l = true := by
  intro l
  induction l with
  | nil => intro st h; cases st <;> cases h
  | cons c cs ih =>
    intro st h
    cases st with
    | true =>
      rw [collapseNLAux] at h
      rw [hasTag, Bool.or_eq_true]
      split_ifs at h with hc hn
      · exact Or.inr (ih true h)
      · exact Or.inr (ih false h)
      · exact Or.inr (ih true h)
    | false =>
      rw [collapseNLAux] at h
      split_ifs at h with hc
      · rw [hasTag, Bool.or_eq_true] at h
        rcases h with h1 | h
        · rw [Bool.and_eq_true, decide_eq_true_eq] at h1
          exact absurd h1.1 (by decide)
        · rw [hasTag, Bool.or_eq_true] at h
          rcases h with h1 | h
          · rw [Bool.and_eq_true, decide_eq_true_eq] at h1
            exact absurd h1.1 (by decide)
          · rw [hasTag, Bool.or_eq_true]
            exact Or.inr (ih true h)
      · rw [hasTag, Bool.or_eq_true] at h
        rw [hasTag, Bool.or_eq_true]
        rcases h with h1 | h
        · rw [Bool.and_eq_true, decide_eq_true_eq] at h1
          obtain ⟨hceq, hta⟩ := h1
          left
          rw [Bool.and_eq_true, decide_eq_true_eq]
          refine ⟨hceq, ?_⟩
          cases cs with
          | nil => rw [show collapseNLAux false [] = [] from rfl] at hta; cases hta
          | cons e es =>
            obtain ⟨t, hhead⟩ := collapseNL_false_head e es
            rw [hhead, tagStartAhead, Bool.and_eq_true, decide_eq_true_eq]
              at hta
            obtain ⟨hene, hgt⟩ := hta
            rw [tagStartAhead, Bool.and_eq_true, decide_eq_true_eq]
            refine ⟨hene, ?_⟩
            have hmem : ('>' : Char) ∈ e :: t := by simpa using hgt
            have : ('>' : Char) ∈ e :: es := by
              have h2 : ('>' : Char) ∈ collapseNLAux false (e :: es) := by
                rw [hhead]; exact hmem
              rcases mem_collapseNLAux _ _ h2 with h3 | h4
              · exact h3
              · cases h4
            simpa using this
        · exact Or.inr (ih false h)

/-- The space collapser preserves the head character up to turning a space
or tab into a space. -/
theorem collapseSP_false_head (e : Char) (es : List Char) :
    ∃ t h0, collapseSPAux false (e :: es) = h0 :: t ∧ (h0 = e ∨ h0 = ' ') := by
  rw [collapseSPAux]
  split_ifs with hc hr
  · simp at hr
  · exact ⟨_, ' ', rfl, Or.inr rfl⟩
  · exact ⟨_, e, rfl, Or.inl rfl⟩

/-- The space collapser cannot create a tag. -/
theorem hasTag_collapseSPAux :
    ∀ (l : List Char) (st : Bool),
      hasTag (collapseSPAux st l) = true → hasTag l = true := by
  intro l
  induction l with
  | nil => intro st h; cases h
  | cons c cs ih =>
    intro st h
    rw [collapseSPAux] at h
    rw [hasTag, Bool.or_eq_true]
    split_ifs at h with hc hr
    · exact Or.inr (ih true h)
    · rw [hasTag, Bool.or_eq_true] at h
      rcases h with h1 | h
      · rw [Bool.and_eq_true, decide_eq_true_eq] at h1
        exact absurd h1.1 (by decide)
      · exact Or.inr (ih true h)
    · rw [hasTag, Bool.or_eq_true] at h
      rcases h with h1 | h
      · rw [Bool.and_eq_true, decide_eq_true_eq] at h1
        obtain ⟨hceq, hta⟩ := h1
        left
        rw [Bool.and_eq_true, decide_eq_true_eq]
        refine ⟨hceq, ?_⟩
        cases cs with
        | nil => rw [show collapseSPAux false [] = [] from rfl] at hta; cases hta
        | cons e es =>
          obtain ⟨t, h0, hhead, hcase⟩ := collapseSP_false_head e es
          rw [hhead, tagStartAhead, Bool.and_eq_true, decide_eq_true_eq] at hta
          obtain ⟨hene, hgt⟩ := hta
          have hespgt : e ≠ '>' := by
            intro hee
            rcases hcase with h2 | h2
            · exact hene (h2.trans hee)
            · subst hee
              rw [h2] at hhead
              rw [collapseSPAux, if_neg (by decide)] at hhead
              cases hhead
          rw [tagStartAhead, Bool.and_eq_true, decide_eq_true_eq]
          refine ⟨hespgt, ?_⟩
          have hmem : ('>' : Char) ∈ h0 :: t := by simpa using hgt
          have : ('>' : Char) ∈ e :: es := by
            have h2 : ('>' : Char) ∈ collapseSPAux false (e :: es) := by
              rw [hhead]; exact hmem
            rcases mem_collapseSPAux _ _ h2 with h3 | h4
            · exact h3
            · cases h4
          simpa using this
      · exact Or.inr (ih false h)

/-- Fixed-point predicate for the blank-line collapser: after every newline,
the following whitespace run contains no further newline beyond an
immediately adjacent one. -/
def goodNLb : List Char → Bool
  | [] => true
  | c :: cs =>
    (if c = '\n' then !((cs.takeWhile pyWs).drop 1).contains '\n' else true)
      && goodNLb cs

/-- A cons-shaped `takeWhile` determines the head of the list. -/
theorem takeWhile_eq_cons (p : Char → Bool) (cs : List Char) (y : Char)
    (t : List Char) (h : cs.takeWhile p = y :: t) :
    ∃ cs2, cs = y :: cs2 ∧ t = List.takeWhile p cs2 ∧ p y = true := by
  cases cs with
  | nil => cases h
  | cons c0 cs0 =>
    rw [List.takeWhile_cons] at h
    split_ifs at h with hp
    · injection h with h1 h2
      exact ⟨cs0, by rw [h1], h2.symm, h1 ▸ hp⟩

/-- On a newline-free leading whitespace run, the blank-line collapser
keeps the leading whitespace run unchanged. -/
theorem takeWhile_collapseNL (cs : List Char)
    (h : '\n' ∉ cs.takeWhile pyWs) :
    (collapseNLAux false cs).takeWhile pyWs = cs.takeWhile pyWs := by
  induction cs with
  | nil => rfl
  | cons c cs' ih =>
    by_cases hws : pyWs c = true
    · rw [List.takeWhile_cons, if_pos hws] at h ⊢
      have hcn : c ≠ '\n' := by
        intro he
        subst he
        exact h (List.mem_cons_self _ _)
      rw [collapseNLAux, if_neg (by
        rw [Bool.and_eq_true, decide_eq_true_eq]
        rintro ⟨he, -⟩
        exact hcn he)]
      rw [List.takeWhile_cons, if_pos hws,
        ih (fun hm => h (List.mem_cons_of_mem c hm))]
    · have hcn : c ≠ '\n' := fun he => hws (by rw [he]; rfl)
      rw [collapseNLAux, if_neg (by
        rw [Bool.and_eq_true, decide_eq_true_eq]
        rintro ⟨he, -⟩
        exact hcn he)]
      rw [List.takeWhile_cons, if_neg (by simpa using hws),
        List.takeWhile_cons, if_neg (by simpa using hws)]

/-- Reduction of the suppressing state: when the whitespace run ahead still
contains a newline, the suppressing collapser resumes in normal state on a
suffix whose whitespace run is newline-free. -/
theorem collapseNL_true_reduce :
    ∀ l : List Char, '\n' ∈ l.takeWhile pyWs →
      ∃ cs', collapseNLAux true l = collapseNLAux false cs' ∧
        '\n' ∉ cs'.takeWhile pyWs ∧ cs'.length ≤ l.length := by
  intro l
  induction l with
  | nil => intro h; cases h
  | cons c cs ih =>
    intro h
    by_cases hws : pyWs c = true
    · by_cases hcn : c = '\n'
      · subst hcn
        rw [collapseNLAux, if_pos rfl]
        by_cases hn : nlAhead cs = true
        · obtain ⟨cs', h1, h2, h3⟩ := ih (by
            unfold nlAhead at hn
            simpa using hn)
          exact ⟨cs', by rw [if_pos hn]; exact h1, h2, Nat.le_succ_of_le h3⟩
        · refine ⟨cs, by rw [if_neg hn], ?_, Nat.le_succ _⟩
          unfold nlAhead at hn
          intro hm
          exact hn (by simpa using hm)
      · rw [List.takeWhile_cons, if_pos hws] at h
        rcases List.mem_cons.mp h with h1 | h2
        · exact absurd h1.symm hcn
        · obtain ⟨cs', h1, h2, h3⟩ := ih h2
          refine ⟨cs', ?_, h2, Nat.le_succ_of_le h3⟩
          rw [collapseNLAux, if_neg (by simpa using hcn)]
          exact h1
    · rw [List.takeWhile_cons, if_neg hws] at h
      cases h

/-- The blank-line collapser establishes its fixed-point predicate. -/
theorem goodNL_collapseNL :
    ∀ (n : Nat) (l : List Char), l.length ≤ n →
      goodNLb (collapseNLAux false l) = true := by
  intro n
  induction n with
  | zero =>
    intro l hl
    rw [List.length_eq_zero.mp (Nat.le_zero.mp hl)]
    rfl
  | succ n ih =>
    intro l hl
    cases l with
    | nil => rfl
    | cons c cs =>
      rw [List.length_cons, Nat.succ_le_succ_iff] at hl
      rw [collapseNLAux]
      split_ifs with hc
      · rw [Bool.and_eq_true, decide_eq_true_eq] at hc
        obtain ⟨hceq, hn⟩ := hc
        obtain ⟨cs', h1, h2, h3⟩ := collapseNL_true_reduce cs (by
          unfold nlAhead at hn
          simpa using hn)
        rw [h1]
        rw [goodNLb, Bool.and_eq_true]
        constructor
        · rw [if_pos rfl]
          rw [List.takeWhile_cons, if_pos (by rfl)]
          rw [List.drop_one, List.tail_cons]
          rw [takeWhile_collapseNL cs' h2]
          simpa using h2
        · rw [goodNLb, Bool.and_eq_true]
          constructor
          · rw [if_pos rfl]
            rw [takeWhile_collapseNL cs' h2]
            have hsub : '\n' ∉ (cs'.takeWhile pyWs).drop 1 :=
              fun hm => h2 (List.mem_of_mem_drop hm)
            simpa using hsub
          · exact ih cs' (Nat.le_trans h3 hl)
      · rw [goodNLb, Bool.and_eq_true]
        refine ⟨?_, ih cs hl⟩
        split_ifs with hceq
        · rw [Bool.and_eq_true, decide_eq_true_eq] at hc
          push_neg at hc
          have hnm : '\n' ∉ cs.takeWhile pyWs := by
            intro hm
            exact hc hceq (by unfold nlAhead; simpa using hm)
          rw [takeWhile_collapseNL cs hnm]
          have hsub : '\n' ∉ (cs.takeWhile pyWs).drop 1 :=
            fun hm => hnm (List.mem_of_mem_drop hm)
          simpa using hsub
        · rfl

/-- A list satisfying the blank-line fixed-point predicate is unchanged by
the blank-line collapser. -/
theorem goodNL_fixed :
    ∀ (n : Nat) (l : List Char), l.length ≤ n → goodNLb l = true →
      collapseNLAux false l = l := by
  intro n
  induction n with
  | zero =>
    intro l hl _
    rw [List.length_eq_zero.mp (Nat.le_zero.mp hl)]
    rfl
  | succ n ih =>
    intro l hl hg
    cases l with
    | nil => rfl
    | cons c cs =>
      rw [List.length_cons, Nat.succ_le_succ_iff] at hl
      rw [goodNLb, Bool.and_eq_true] at hg
      obtain ⟨hg1, hg2⟩ := hg
      rw [collapseNLAux]
      split_ifs with hc
      · rw [Bool.and_eq_true, decide_eq_true_eq] at hc
        obtain ⟨hceq, hn⟩ := hc
        subst hceq
        rw [if_pos rfl] at hg1
        unfold nlAhead at hn
        have hmem : '\n' ∈ cs.takeWhile pyWs := by simpa using hn
        have hne : cs.takeWhile pyWs ≠ [] :=
          fun he => by rw [he] at hmem; cases hmem
        obtain ⟨y, t, ht⟩ := List.exists_cons_of_ne_nil hne
        have hnot : '\n' ∉ t := by
          have h0 := hg1
          rw [ht, List.drop_one, List.tail_cons] at h0
          simpa using h0
        have hy : y = '\n' := by
          rw [ht] at hmem
          rcases List.mem_cons.mp hmem with h1 | h2
          · exact h1.symm
          · exact absurd h2 hnot
        subst hy
        obtain ⟨cs2, hcs2, ht2, -⟩ := takeWhile_eq_cons pyWs cs _ t ht
        have hn2 : nlAhead cs2 = false := by
          rw [ht2] at hnot
          unfold nlAhead
          simpa using hnot
        have hg2' : goodNLb cs2 = true := by
          rw [hcs2, goodNLb, Bool.and_eq_true] at hg2
          exact hg2.2
        have hlen2 : cs2.length ≤ n := by
          rw [hcs2, List.length_cons] at hl
          exact Nat.le_of_succ_le hl
        rw [hcs2]
        rw [collapseNLAux, if_pos rfl, if_neg (by simp [hn2]),
          ih cs2 hlen2 hg2']
      · rw [ih cs hl hg2]

/-- The space collapser keeps a newline-free leading whitespace run
newline-free. -/
theorem nlFree_collapseSP :
    ∀ (cs : List Char) (st : Bool), '\n' ∉ cs.takeWhile pyWs →
      '\n' ∉ (collapseSPAux st cs).takeWhile pyWs := by
  intro cs
  induction cs with
  | nil => intro st h hm; cases hm
  | cons c cs' ih =>
    intro st h
    by_cases hsp : (c = ' ' || c = '\t') = true
    · have hws : pyWs c = true := by
        rw [Bool.or_eq_true, decide_eq_true_eq, decide_eq_true_eq] at hsp
        rcases hsp with h1 | h1 <;> rw [h1] <;> rfl
      rw [List.takeWhile_cons, if_pos hws] at h
      have h' : '\n' ∉ cs'.takeWhile pyWs :=
        fun hm => h (List.mem_cons_of_mem c hm)
      rw [collapseSPAux, if_pos hsp]
      cases st with
      | true => rw [if_pos rfl]; exact ih true h'
      | false =>
        rw [if_neg Bool.false_ne_true]
        rw [List.takeWhile_cons, if_pos (by decide)]
        intro hm
        rcases List.mem_cons.mp hm with h1 | h2
        · exact absurd h1 (by decide)
        · exact ih true h' h2
    · rw [collapseSPAux, if_neg hsp]
      by_cases hws : pyWs c = true
      · rw [List.takeWhile_cons, if_pos hws] at h ⊢
        intro hm
        rcases List.mem_cons.mp hm with h1 | h2
        · exact h (by rw [h1]; exact List.mem_cons_self _ _)
        · exact ih false (fun hm2 => h (List.mem_cons_of_mem c hm2)) h2
      · rw [List.takeWhile_cons, if_neg hws]
        intro hm
        cases hm

/-- The space collapser keeps the whitespace run after the first position
newline-free. -/
theorem nlFree1_collapseSP (cs : List Char) (st : Bool)
    (h : '\n' ∉ (cs.takeWhile pyWs).drop 1) :
    '\n' ∉ ((collapseSPAux st cs).takeWhile pyWs).drop 1 := by
  by_cases h0 : '\n' ∈ cs.takeWhile pyWs
  · have hne : cs.takeWhile pyWs ≠ [] :=
      fun he => by rw [he] at h0; cases h0
    obtain ⟨y, t, ht⟩ := List.exists_cons_of_ne_nil hne
    have hnt : '\n' ∉ t := by
      rw [ht, List.drop_one, List.tail_cons] at h
      exact h
    have hy : y = '\n' := by
      rw [ht] at h0
      rcases List.mem_cons.mp h0 with h1 | h2
      · exact h1.symm
      · exact absurd h2 hnt
    subst hy
    obtain ⟨cs2, hcs2, ht2, -⟩ := takeWhile_eq_cons pyWs cs _ t ht
    rw [ht2] at hnt
    rw [hcs2, collapseSPAux, if_neg (by decide)]
    rw [List.takeWhile_cons, if_pos (by decide), List.drop_one, List.tail_cons]
    exact nlFree_collapseSP cs2 false hnt
  · intro hm
    exact nlFree_collapseSP cs st h0 (List.mem_of_mem_drop hm)

/-- The space collapser preserves the blank-line fixed-point predicate. -/
theorem goodNL_collapseSP :
    ∀ (l : List Char) (st : Bool), goodNLb l = true →
      goodNLb (collapseSPAux st l) = true := by
  intro l
  induction l with
  | nil => intro st _; rfl
  | cons c cs ih =>
    intro st hg
    rw [goodNLb, Bool.and_eq_true] at hg
    obtain ⟨hg1, hg2⟩ := hg
    by_cases hsp : (c = ' ' || c = '\t') = true
    · rw [collapseSPAux, if_pos hsp]
      cases st with
      | true => rw [if_pos rfl]; exact ih true hg2
      | false =>
        rw [if_neg Bool.false_ne_true]
        rw [goodNLb, Bool.and_eq_true]
        exact ⟨by rw [if_neg (by decide)], ih true hg2⟩
    · rw [collapseSPAux, if_neg hsp]
      rw [goodNLb, Bool.and_eq_true]
      refine ⟨?_, ih false hg2⟩
      split_ifs with hceq
      · rw [if_pos hceq] at hg1
        have h1 : '\n' ∉ (cs.takeWhile pyWs).drop 1 := by simpa using hg1
        simpa using nlFree1_collapseSP cs false h1
      · rfl

/-- The blank-line fixed-point predicate passes to the tail. -/
theorem goodNL_tail (c : Char) (cs : List Char)
    (h : goodNLb (c :: cs) = true) : goodNLb cs = true := by
  rw [goodNLb, Bool.and_eq_true] at h
  exact h.2

/-- The blank-line fixed-point predicate survives dropping a prefix run. -/
theorem goodNL_dropWhile (p : Char → Bool) :
    ∀ l : List Char, goodNLb l = true → goodNLb (l.dropWhile p) = true := by
  intro l
  induction l with
  | nil => intro h; exact h
  | cons c cs ih =>
    intro h
    rw [List.dropWhile_cons]
    split_ifs with hp
    · exact ih (goodNL_tail c cs h)
    · exact h

/-- `takeWhile` over an append extends the `takeWhile` of the left factor. -/
theorem takeWhile_append_prefix (p : Char → Bool) :
    ∀ t l2 : List Char, ∃ r,
      List.takeWhile p (t ++ l2) = t.takeWhile p ++ r := by
  intro t
  induction t with
  | nil => intro l2; exact ⟨l2.takeWhile p, rfl⟩
  | cons c t' ih =>
    intro l2
    by_cases hp : p c = true
    · obtain ⟨r, hr⟩ := ih l2
      refine ⟨r, ?_⟩
      rw [List.cons_append, List.takeWhile_cons, if_pos hp,
        List.takeWhile_cons, if_pos hp, hr, List.cons_append]
    · refine ⟨[], ?_⟩
      rw [List.cons_append, List.takeWhile_cons, if_neg hp,
        List.takeWhile_cons, if_neg hp]
      rfl

/-- Membership in `drop 1` of a left factor transfers to the append. -/
theorem mem_drop_one_append {x : Char} (a r : List Char)
    (h : x ∈ a.drop 1) : x ∈ (a ++ r).drop 1 := by
  cases a with
  | nil => cases h
  | cons a0 as =>
    rw [List.drop_one, List.tail_cons] at h
    rw [List.cons_append, List.drop_one, List.tail_cons]
    exact List.mem_append_left _ h

/-- The blank-line fixed-point predicate restricts to a left factor. -/
theorem goodNL_append_left :
    ∀ l1 l2 : List Char, goodNLb (l1 ++ l2) = true → goodNLb l1 = true := by
  intro l1
  induction l1 with
  | nil => intro l2 _; rfl
  | cons c t ih =>
    intro l2 h
    rw [List.cons_append, goodNLb, Bool.and_eq_true] at h
    obtain ⟨h1, h2⟩ := h
    rw [goodNLb, Bool.and_eq_true]
    refine ⟨?_, ih l2 h2⟩
    split_ifs with hceq
    · rw [if_pos hceq] at h1
      obtain ⟨r, hr⟩ := takeWhile_append_prefix pyWs t l2
      rw [hr] at h1
      have h1' : '\n' ∉ (t.takeWhile pyWs ++ r).drop 1 := by simpa using h1
      have hno : '\n' ∉ (t.takeWhile pyWs).drop 1 :=
        fun hm => h1' (mem_drop_one_append _ r hm)
      simpa using hno
    · rfl

/-- Removing a trailing run leaves a left factor of the list. -/
theorem revDropWhile_append (p : Char → Bool) (X : List Char) :
    X = (X.reverse.dropWhile p).reverse ++ (X.reverse.takeWhile p).reverse := by
  conv_lhs => rw [← List.reverse_reverse X,
    ← List.takeWhile_append_dropWhile p X.reverse]
  rw [List.reverse_append]

/-- The blank-line fixed-point predicate is preserved by `str.strip()`. -/
theorem goodNL_pyStrip (l : List Char) (h : goodNLb l = true) :
    goodNLb (pyStrip l) = true := by
  have h1 : goodNLb (l.dropWhile pyWs) = true := goodNL_dropWhile pyWs l h
  unfold pyStrip
  apply goodNL_append_left _ (((l.dropWhile pyWs).reverse.takeWhile pyWs).reverse)
  rw [← revDropWhile_append pyWs (l.dropWhile pyWs)]
  exact h1

/-- Does the list avoid starting with a space or tab? -/
def spHeadOk : List Char → Bool
  | [] => true
  | d :: _ => !(d = ' ' || d = '\t')

/-- Fixed-point predicate for the space collapser: no tab anywhere, and no
space immediately followed by a space or tab. -/
def goodSPb : List Char → Bool
  | [] => true
  | c :: cs =>
    (if c = '\t' then false else if c = ' ' then spHeadOk cs else true)
      && goodSPb cs

/-- The space collapser in suppressing state emits no leading space or tab. -/
theorem collapseSP_true_head :
    ∀ cs : List Char, collapseSPAux true cs = [] ∨
      ∃ d t, collapseSPAux true cs = d :: t ∧ (d = ' ' || d = '\t') = false := by
  intro cs
  induction cs with
  | nil => exact Or.inl rfl
  | cons c cs' ih =>
    by_cases hsp : (c = ' ' || c = '\t') = true
    · rw [collapseSPAux, if_pos hsp, if_pos rfl]
      exact ih
    · refine Or.inr ⟨c, collapseSPAux false cs', ?_, Bool.eq_false_iff.mpr hsp⟩
      rw [collapseSPAux, if_neg hsp]

/-- The space collapser establishes its fixed-point predicate. -/
theorem goodSP_collapseSP :
    ∀ (l : List Char) (st : Bool), goodSPb (collapseSPAux st l) = true := by
  intro l
  induction l with
  | nil => intro st; rfl
  | cons c cs ih =>
    intro st
    by_cases hsp : (c = ' ' || c = '\t') = true
    · rw [collapseSPAux, if_pos hsp]
      cases st with
      | true => rw [if_pos rfl]; exact ih true
      | false =>
        rw [if_neg Bool.false_ne_true]
        rw [goodSPb, Bool.and_eq_true]
        refine ⟨?_, ih true⟩
        rw [if_neg (by decide), if_pos rfl]
        rcases collapseSP_true_head cs with h0 | ⟨d, t, h1, h2⟩
        · rw [h0]
          rfl
        · rw [h1]
          have hgoal : (!(d = ' ' || d = '\t')) = true := by rw [h2]; rfl
          exact hgoal
    · rw [collapseSPAux, if_neg hsp]
      rw [goodSPb, Bool.and_eq_true]
      refine ⟨?_, ih false⟩
      rw [Bool.or_eq_true, decide_eq_true_eq, decide_eq_true_eq] at hsp
      push_neg at hsp
      rw [if_neg hsp.2, if_neg hsp.1]

/-- A list satisfying the space fixed-point predicate is unchanged by the
space collapser in normal state. -/
theorem goodSP_fixed :
    ∀ l : List Char, goodSPb l = true → collapseSPAux false l = l := by
  intro l
  induction l with
  | nil => intro _; rfl
  | cons c cs ih =>
    intro hg
    rw [goodSPb, Bool.and_eq_true] at hg
    obtain ⟨hg1, hg2⟩ := hg
    by_cases htb : c = '\t'
    · rw [if_pos htb] at hg1
      cases hg1
    · by_cases hspc : c = ' '
      · subst hspc
        rw [if_neg (by decide), if_pos rfl] at hg1
        rw [collapseSPAux, if_pos (by decide), if_neg Bool.false_ne_true]
        cases cs with
        | nil => rfl
        | cons d t =>
          have hnot : (!(d = ' ' || d = '\t')) = true := hg1
          have hd : (d = ' ' || d = '\t') = false := by
            cases hdd : (d = ' ' || d = '\t') with
            | false => rfl
            | true => rw [hdd] at hnot; cases hnot
          have hcs := ih hg2
          rw [collapseSPAux, if_neg (by simp [hd])] at hcs
          injection hcs with h1 hcs2
          rw [collapseSPAux, if_neg (by simp [hd]), hcs2]
      · rw [collapseSPAux, if_neg (by simp [hspc, htb]), ih hg2]

/-- The space fixed-point predicate passes to the tail. -/
theorem goodSP_tail (c : Char) (cs : List Char)
    (h : goodSPb (c :: cs) = true) : goodSPb cs = true := by
  rw [goodSPb, Bool.and_eq_true] at h
  exact h.2

/-- The space fixed-point predicate survives dropping a prefix run. -/
theorem goodSP_dropWhile (p : Char → Bool) :
    ∀ l : List Char, goodSPb l = true → goodSPb (l.dropWhile p) = true := by
  intro l
  induction l with
  | nil => intro h; exact h
  | cons c cs ih =>
    intro h
    rw [List.dropWhile_cons]
    split_ifs with hp
    · exact ih (goodSP_tail c cs h)
    · exact h

/-- The space fixed-point predicate restricts to a left factor. -/
theorem goodSP_append_left :
    ∀ l1 l2 : List Char, goodSPb (l1 ++ l2) = true → goodSPb l1 = true := by
  intro l1
  induction l1 with
  | nil => intro l2 _; rfl
  | cons c t ih =>
    intro l2 h
    rw [List.cons_append, goodSPb, Bool.and_eq_true] at h
    obtain ⟨h1, h2⟩ := h
    rw [goodSPb, Bool.and_eq_true]
    refine ⟨?_, ih l2 h2⟩
    by_cases htb : c = '\t'
    · rw [if_pos htb] at h1
      cases h1
    · by_cases hspc : c = ' '
      · rw [if_neg htb, if_pos hspc] at h1 ⊢
        cases t with
        | nil => rfl
        | cons d t' =>
          rw [List.cons_append] at h1
          exact h1
      · rw [if_neg htb, if_neg hspc]

/-- The space fixed-point predicate is preserved by `str.strip()`. -/
theorem goodSP_pyStrip (l : List Char) (h : goodSPb l = true) :
    goodSPb (pyStrip l) = true := by
  have h1 : goodSPb (l.dropWhile pyWs) = true := goodSP_dropWhile pyWs l h
  unfold pyStrip
  apply goodSP_append_left _ (((l.dropWhile pyWs).reverse.takeWhile pyWs).reverse)
  rw [← revDropWhile_append pyWs (l.dropWhile pyWs)]
  exact h1

/-- An input that is ampersand-free, tag-free and a fixed point of the
blank-line collapser, the space collapser and `strip()` is a fixed point of
the whole handler pipeline. -/
theorem htmlHandler_fixed (r : List Char) (hamp : '&' ∉ r)
    (htag : hasTag r = false)
    (hNL : collapseNLAux false r = r) (hSP : collapseSPAux false r = r)
    (hstr : pyStrip r = r) :
    HtmlHandler.strip_html r = r := by
  unfold HtmlHandler.strip_html
  dsimp only
  unfold stripTags pyUnescape
  rw [subBr_eq_self r htag]
  have hP : subLitCIAux "</p>".data '\n' 0 r = r :=
    subLitCI_eq_self '/' "p>".data '\n' (by decide) (by decide) r htag
  have hD : subLitCIAux "</div>".data '\n' 0 r = r :=
    subLitCI_eq_self '/' "div>".data '\n' (by decide) (by decide) r htag
  have hL : subLitCIAux "</li>".data '\n' 0 r = r :=
    subLitCI_eq_self '/' "li>".data '\n' (by decide) (by decide) r htag
  rw [hP, hD, hL, stripTags_eq_self r htag, pyUnescape_eq_self r hamp,
    hNL, hSP, hstr]

/-- The tag-removal front of the handler pipeline maps ampersand-free
input to ampersand-free output. -/
theorem amp_free_pipeline (l : List Char) (h : '&' ∉ l) :
    '&' ∉ stripTags (subLitCIAux "</li>".data '\n' 0
      (subLitCIAux "</div>".data '\n' 0 (subLitCIAux "</p>".data '\n' 0
        (subBrAux 0 l)))) := by
  intro hm
  have h1 := mem_stripTagsAux false _ hm
  rcases mem_subLitCIAux _ '\n' _ 0 h1 with h2 | h2
  case inr => exact absurd h2 (by decide)
  rcases mem_subLitCIAux _ '\n' _ 0 h2 with h3 | h3
  case inr => exact absurd h3 (by decide)
  rcases mem_subLitCIAux _ '\n' _ 0 h3 with h4 | h4
  case inr => exact absurd h4 (by decide)
  rcases mem_subBrAux _ 0 h4 with h5 | h5
  · exact h h5
  · exact absurd h5 (by decide)

/-- After tag removal, the whitespace-normalising tail of the handler
pipeline produces a fixed point of the whole pipeline. -/
theorem htmlHandler_tail_fixed (T : List Char) (hTamp : '&' ∉ T)
    (hTtag : hasTag T = false) :
    HtmlHandler.strip_html
        (pyStrip (collapseSPAux false (collapseNLAux false T)))
      = pyStrip (collapseSPAux false (collapseNLAux false T)) := by
  have hNT : hasTag (collapseNLAux false T) = false := by
    cases hx : hasTag (collapseNLAux false T) with
    | false => rfl
    | true =>
      have hy := hasTag_collapseNLAux T false hx
      rw [hTtag] at hy
      cases hy
  have hST : hasTag (collapseSPAux false (collapseNLAux false T)) = false := by
    cases hx : hasTag (collapseSPAux false (collapseNLAux false T)) with
    | false => rfl
    | true =>
      have hy := hasTag_collapseSPAux _ false hx
      rw [hNT] at hy
      cases hy
  have hr_tag := hasTag_pyStrip _ hST
  have hr_amp :
      '&' ∉ pyStrip (collapseSPAux false (collapseNLAux false T)) := by
    intro hm
    have hm1 := mem_pyStrip _ hm
    rcases mem_collapseSPAux _ false hm1 with h1 | h1
    case inr => exact absurd h1 (by decide)
    rcases mem_collapseNLAux _ false h1 with h2 | h2
    · exact hTamp h2
    · exact absurd h2 (by decide)
  have hgNL :
      goodNLb (pyStrip (collapseSPAux false (collapseNLAux false T))) = true :=
    goodNL_pyStrip _
      (goodNL_collapseSP _ false (goodNL_collapseNL T.length T (Nat.le_refl _)))
  have hr_NL := goodNL_fixed _ _ (Nat.le_refl _) hgNL
  have hgSP :
      goodSPb (pyStrip (collapseSPAux false (collapseNLAux false T))) = true :=
    goodSP_pyStrip _ (goodSP_collapseSP _ false)
  have hr_SP := goodSP_fixed _ hgSP
  have hr_str := pyStrip_idem (collapseSPAux false (collapseNLAux false T))
  exact htmlHandler_fixed _ hr_amp hr_tag hr_NL hr_SP hr_str

/-- On ampersand-free input the handler-side `strip_html` is idempotent. -/
theorem htmlHandler_strip_idem (l : List Char) (h : '&' ∉ l) :
    HtmlHandler.strip_html (HtmlHandler.strip_html l)
      = HtmlHandler.strip_html l := by
  have hTamp := amp_free_pipeline l h
  have hTtag : hasTag (stripTags (subLitCIAux "</li>".data '\n' 0
      (subLitCIAux "</div>".data '\n' 0 (subLitCIAux "</p>".data '\n' 0
        (subBrAux 0 l))))) = false := hasTag_stripTagsAux false _
  have hkey := htmlHandler_tail_fixed _ hTamp hTtag
  have hexp : HtmlHandler.strip_html l =
      pyStrip (collapseSPAux false (collapseNLAux false
        (stripTags (subLitCIAux "</li>".data '\n' 0
          (subLitCIAux "</div>".data '\n' 0 (subLitCIAux "</p>".data '\n' 0
            (subBrAux 0 l))))))) := by
    unfold HtmlHandler.strip_html
    dsimp only
    unfold pyUnescape
    rw [pyUnescape_eq_self _ hTamp]
  rw [hexp]
  exact hkey

/-- C8 (amended): on every input containing no ampersand, both
HTML-stripping implementations are idempotent. On general input the claim
fails (see the counterexample): entity decoding in the first pass can
synthesise tags that the second pass then removes. -/
theorem claim_C8_strip_html_idem (l : List Char) (h : '&' ∉ l) :
    CardValidator.strip_html (CardValidator.strip_html l)
        = CardValidator.strip_html l ∧
    HtmlHandler.strip_html (HtmlHandler.strip_html l)
        = HtmlHandler.strip_html l :=
  ⟨cardValidator_strip_idem l h, htmlHandler_strip_idem l h⟩

/-- Witness: the amended C8 theorem at a concrete ampersand-free input. -/
theorem claim_C8_strip_html_idem_witness :
    '&' ∉ "<b>a</b>  c\n\n\n\td".data ∧
    (CardValidator.strip_html
          (CardValidator.strip_html "<b>a</b>  c\n\n\n\td".data)
        = CardValidator.strip_html "<b>a</b>  c\n\n\n\td".data ∧
      HtmlHandler.strip_html
          (HtmlHandler.strip_html "<b>a</b>  c\n\n\n\td".data)
        = HtmlHandler.strip_html "<b>a</b>  c\n\n\n\td".data) :=
  ⟨by decide, claim_C8_strip_html_idem _ (by decide)⟩
